import Mathlib

/-!
Verification of the realtime-messaging core of the Telegram-miniTe-FE
repository against its natural-language specification.

The TypeScript sources are shallowly embedded as Lean definitions:

* `src/lib/mqtt-client.ts` (`TelegramMqttClient`, `getMqttClient`): the
  transport client.  JS `Map`s are modelled as association lists with the
  helper functions `mget` / `mset` / `mdel` / `mhas` below (observationally
  equivalent to `Map.get` / `Map.set` / `Map.delete` / `Map.has`), JS `Set`s
  of strings as `List String`.  The asynchronous subscribe / unsubscribe
  round-trips are split into a synchronous "call" part and an "ack" part
  (the broker callback), glued together by an explicit step relation.
* `src/services/chat-realtime.service.ts` (`ChatRealtimeService`): topic
  codec, publish helpers, typing-expiry timers.  `setTimeout` timers are
  modelled as explicit tasks with numeric ids and virtual-time deadlines.
* the two zustand chat stores (`src/lib/store.ts` and
  `src/store/chat.store.ts`): `addMessage`, `sendMessage`,
  `setTypingUser`, `removeTypingUser`.

Strings stay `String`; where character-level matching is needed (the topic
regexes) we work on `String.data`.
-/

namespace TelegramFE

/-! ## Association-list model of JS `Map` (string keys) -/

/-- `Map.delete k` (removes every binding of `k`; a JS map has at most one). -/
def mdel {α : Type} : List (String × α) → String → List (String × α)
  | [], _ => []
  | p :: rest, k => if p.1 = k then mdel rest k else p :: mdel rest k

/-- `Map.get k` (the binding of `k`, if any). -/
def mget {α : Type} : List (String × α) → String → Option α
  | [], _ => none
  | p :: rest, k => if p.1 = k then some p.2 else mget rest k

/-- `Map.set k v`: after this, `get k` yields `v` and all other keys are
unchanged (insertion position is irrelevant to every property we state). -/
def mset {α : Type} (m : List (String × α)) (k : String) (v : α) : List (String × α) :=
  mdel m k ++ [(k, v)]

/-- `Map.has k`. -/
def mhas {α : Type} (m : List (String × α)) (k : String) : Bool :=
  (mget m k).isSome

/-- `Set.delete k` on a JS set of strings. -/
def sdel : List String → String → List String
  | [], _ => []
  | x :: rest, k => if x = k then sdel rest k else x :: sdel rest k

/-- Remove every element of `ts` from the set `l`
(`topics.forEach(t => set.delete(t))`). -/
def sdelAll (l : List String) (ts : List String) : List String :=
  ts.foldl sdel l

/-- Remove every binding whose key is in `ts`
(`topics.forEach(t => map.delete(t))`). -/
def mdelAll {α : Type} (m : List (String × α)) (ts : List String) : List (String × α) :=
  ts.foldl mdel m

/-! ## Transport client (`src/lib/mqtt-client.ts`, class `TelegramMqttClient`)

The mutable fields of the class become a `ClientState`.  `this.client` is
abstracted to the boolean `hasClient` (`client !== null`).  Each async
broker round-trip is split into its synchronous call part and its callback
part; `inflightSubs` / `inflightUnsubs` record the argument lists captured
by the closures of broker callbacks that have not run yet (they have no
field counterpart in the class — they model the pending callbacks).
`failedUnsubs` is a pure history component recording the topic lists of
broker unsubscribe calls whose callback ran with an error. -/

inductive ConnectionStatus
  | disconnected
  | connecting
  | connected
  | reconnecting
  | error
deriving DecidableEq, Repr

structure ClientState where
  hasClient : Bool
  status : ConnectionStatus
  isDisconnecting : Bool
  subscribedTopics : List (String × Nat)
  activeTopics : List (String × Nat)
  pendingTopics : List String
  inflightSubs : List (List String × Nat)
  inflightUnsubs : List (List String)
  failedUnsubs : List String
deriving DecidableEq, Repr

def initialState : ClientState :=
  { hasClient := false
    status := .disconnected
    isDisconnecting := false
    subscribedTopics := []
    activeTopics := []
    pendingTopics := []
    inflightSubs := []
    inflightUnsubs := []
    failedUnsubs := [] }

namespace ClientState

/-- `private setStatus(status)`: stores the status and, on `reconnecting`
or `disconnected`, clears `activeTopics` and `pendingTopics`. -/
def setStatus (st : ClientState) (s : ConnectionStatus) : ClientState :=
  let st' := { st with status := s }
  if s = .reconnecting ∨ s = .disconnected then
    { st' with activeTopics := [], pendingTopics := [] }
  else st'

/-- `connect()` synchronous part: resolves at once when a client already
exists, otherwise creates the client and enters `connecting`. -/
def connect (st : ClientState) : ClientState :=
  if st.hasClient then st
  else ({ st with isDisconnecting := false, hasClient := true }).setStatus .connecting

/-- mqtt.js `connect` event handler (the resubscribe pass it spawns appears
as separate `subscribe` steps in the step relation). -/
def onConnect (st : ClientState) : ClientState := st.setStatus .connected

/-- mqtt.js `reconnect` event handler. -/
def onReconnect (st : ClientState) : ClientState :=
  if st.isDisconnecting then st else st.setStatus .reconnecting

/-- mqtt.js `error` event handler. -/
def onError (st : ClientState) : ClientState :=
  if st.isDisconnecting then st else st.setStatus .error

/-- mqtt.js `close` event handler. -/
def onClose (st : ClientState) : ClientState :=
  if st.isDisconnecting = true ∨ st.status = .reconnecting then st
  else st.setStatus .disconnected

/-- mqtt.js `offline` event handler. -/
def onOffline (st : ClientState) : ClientState :=
  if st.isDisconnecting then st else st.setStatus .disconnected

/-- `subscribe(topic, {qos})` synchronous part: every unique topic is
recorded in `subscribedTopics`; the topics neither active nor pending are
marked pending and sent to the broker (recorded in `inflightSubs`).
Rejects without state change when no client exists. -/
def subscribe (st : ClientState) (topic : List String) (qos : Nat) : ClientState :=
  if st.hasClient = false then st
  else
    let uniqueTopics := topic.dedup
    let st1 := { st with
      subscribedTopics := uniqueTopics.foldl (fun m t => mset m t qos) st.subscribedTopics }
    let freshTopics := uniqueTopics.filter (fun t =>
      !(mhas st1.activeTopics t) && !(st1.pendingTopics.contains t))
    if freshTopics.isEmpty then st1
    else { st1 with
      pendingTopics := st1.pendingTopics ++ freshTopics
      inflightSubs := st1.inflightSubs ++ [(freshTopics, qos)] }

/-- One iteration of the `freshTopics.forEach` loop in the subscribe
grant callback: un-mark pending, then either activate the topic (still
desired) or record an immediate fire-and-forget broker unsubscribe for it.
The second component of the accumulator collects those unsubscribes. -/
def grantStep (qos : Nat) (acc : ClientState × List String) (t : String) :
    ClientState × List String :=
  if mhas acc.1.subscribedTopics t then
    ({ acc.1 with
       pendingTopics := sdel acc.1.pendingTopics t
       activeTopics := mset acc.1.activeTopics t qos }, acc.2)
  else
    ({ acc.1 with pendingTopics := sdel acc.1.pendingTopics t }, acc.2 ++ [t])

/-- The subscribe callback in the success case (`err` is `null`): returns
the new state and the topics for which an immediate broker unsubscribe was
issued. -/
def subscribeGranted (st : ClientState) (freshTopics : List String) (qos : Nat) :
    ClientState × List String :=
  freshTopics.foldl (grantStep qos) (st, [])

/-- The subscribe callback when `err` is set: the fresh topics are removed
from `pendingTopics` and the promise rejects. -/
def subscribeFailed (st : ClientState) (freshTopics : List String) : ClientState :=
  { st with pendingTopics := sdelAll st.pendingTopics freshTopics }

/-- Machine step for a successful subscribe ack: the callback runs and the
in-flight request is consumed. -/
def ackSubscribe (st : ClientState) (freshTopics : List String) (qos : Nat) : ClientState :=
  let st1 := { st with inflightSubs := st.inflightSubs.erase (freshTopics, qos) }
  (st1.subscribeGranted freshTopics qos).1

/-- Machine step for a failed subscribe ack. -/
def ackSubscribeFailed (st : ClientState) (freshTopics : List String) (qos : Nat) : ClientState :=
  { st.subscribeFailed freshTopics with inflightSubs := st.inflightSubs.erase (freshTopics, qos) }

/-- The subset of `topics` that is currently active — the list captured by
`unsubscribe` for the broker call. -/
def unsubActiveList (st : ClientState) (topics : List String) : List String :=
  topics.filter (fun t => mhas st.activeTopics t)

/-- `unsubscribe(topic)` synchronous part: removes the topics from
`subscribedTopics` and `pendingTopics` unconditionally; issues a broker
unsubscribe (recorded in `inflightUnsubs`) only for the active subset.
Rejects without state change when no client exists. -/
def unsubscribe (st : ClientState) (topics : List String) : ClientState :=
  if st.hasClient = false then st
  else
    let activeList := st.unsubActiveList topics
    let st1 := { st with
      subscribedTopics := mdelAll st.subscribedTopics topics
      pendingTopics := sdelAll st.pendingTopics topics }
    if activeList.isEmpty then st1
    else { st1 with inflightUnsubs := st1.inflightUnsubs ++ [activeList] }

/-- The unsubscribe callback in the success case: the captured active
subset is removed from `activeTopics`. -/
def unsubscribeAcked (st : ClientState) (activeList : List String) : ClientState :=
  { st with
    activeTopics := mdelAll st.activeTopics activeList
    inflightUnsubs := st.inflightUnsubs.erase activeList }

/-- The unsubscribe callback when `err` is set: the promise rejects and
`activeTopics` keeps the entries. -/
def unsubscribeFailed (st : ClientState) (activeList : List String) : ClientState :=
  { st with
    inflightUnsubs := st.inflightUnsubs.erase activeList
    failedUnsubs := st.failedUnsubs ++ activeList }

/-- `disconnect()` when `this.client` is already `null`. -/
def disconnectNoClient (st : ClientState) : ClientState :=
  ({ st with subscribedTopics := [], activeTopics := [], pendingTopics := [] }).setStatus
    .disconnected

/-- `disconnect()` when a client exists: sets `isDisconnecting` and calls
`client.end`; the end callback is the separate `disconnectEnd` step. -/
def disconnectBegin (st : ClientState) : ClientState :=
  { st with isDisconnecting := true }

/-- `disconnect()` synchronous part. -/
def disconnect (st : ClientState) : ClientState :=
  if st.hasClient = false then st.disconnectNoClient else st.disconnectBegin

/-- The `client.end` callback: drops the client, clears all subscription
bookkeeping and enters `disconnected`. -/
def disconnectEnd (st : ClientState) : ClientState :=
  let cleared : ClientState :=
    { st with
      hasClient := false
      subscribedTopics := []
      activeTopics := []
      pendingTopics := [] }
  { cleared.setStatus .disconnected with isDisconnecting := false }

end ClientState

structure PublishOptions where
  qos : Option Nat
  retain : Option Bool
deriving DecidableEq, Repr

/-- Outcome of `publish(topic, payload, options)`: either the promise
rejects at the guard, or a broker publish is issued with the effective
QoS (`options.qos ?? 1`) and retain flag (`options.retain ?? false`). -/
inductive PublishResult
  | rejected
  | issued (topic : String) (payload : String) (qos : Nat) (retain : Bool)
deriving DecidableEq, Repr

/-- `publish`: rejects exactly when `this.client` is `null`; otherwise the
(already serialized) payload is handed to the broker client. -/
def ClientState.publish (st : ClientState) (topic payload : String)
    (options : PublishOptions) : PublishResult :=
  if st.hasClient = false then .rejected
  else .issued topic payload (options.qos.getD 1) (options.retain.getD false)

/-- One step of the transport client: a public method call, a broker
event, or a pending broker callback running. -/
inductive Step : ClientState → ClientState → Prop
  | connectCall (st : ClientState) : Step st st.connect
  | brokerConnect (st : ClientState) (h : st.hasClient = true) : Step st st.onConnect
  | brokerReconnect (st : ClientState) (h : st.hasClient = true) : Step st st.onReconnect
  | brokerError (st : ClientState) (h : st.hasClient = true) : Step st st.onError
  | brokerClose (st : ClientState) (h : st.hasClient = true) : Step st st.onClose
  | brokerOffline (st : ClientState) (h : st.hasClient = true) : Step st st.onOffline
  | subscribeCall (st : ClientState) (topics : List String) (qos : Nat) :
      Step st (st.subscribe topics qos)
  | subscribeAck (st : ClientState) (fresh : List String) (qos : Nat)
      (h : (fresh, qos) ∈ st.inflightSubs) : Step st (st.ackSubscribe fresh qos)
  | subscribeAckFailed (st : ClientState) (fresh : List String) (qos : Nat)
      (h : (fresh, qos) ∈ st.inflightSubs) : Step st (st.ackSubscribeFailed fresh qos)
  | unsubscribeCall (st : ClientState) (topics : List String) :
      Step st (st.unsubscribe topics)
  | unsubscribeAck (st : ClientState) (lst : List String)
      (h : lst ∈ st.inflightUnsubs) : Step st (st.unsubscribeAcked lst)
  | unsubscribeAckFailed (st : ClientState) (lst : List String)
      (h : lst ∈ st.inflightUnsubs) : Step st (st.unsubscribeFailed lst)
  | disconnectCall (st : ClientState) : Step st st.disconnect
  | disconnectDone (st : ClientState) (h : st.isDisconnecting = true) :
      Step st st.disconnectEnd

/-- States reachable from a freshly constructed client. -/
inductive Reachable : ClientState → Prop
  | init : Reachable initialState
  | step {s s' : ClientState} : Reachable s → Step s s' → Reachable s'

/-! ### Subscription-bookkeeping invariants -/

/-- No topic is in both `pendingTopics` and `activeTopics`. -/
def PendingActiveDisjoint (st : ClientState) : Prop :=
  ∀ t, t ∈ st.pendingTopics → mhas st.activeTopics t = false

/-- Every active topic is still desired, or has a broker unsubscribe in
flight for it, or had a broker unsubscribe fail for it. -/
def ActiveJustified (st : ClientState) : Prop :=
  ∀ t, mhas st.activeTopics t = true →
    mhas st.subscribedTopics t = true ∨ (∃ l ∈ st.inflightUnsubs, t ∈ l) ∨ t ∈ st.failedUnsubs

/-- In status `connected` a client object exists. -/
def ConnectedHasClient (st : ClientState) : Prop :=
  st.status = ConnectionStatus.connected → st.hasClient = true

def ClientInv (st : ClientState) : Prop :=
  PendingActiveDisjoint st ∧ ActiveJustified st ∧ ConnectedHasClient st

/-! ## Topic codec (`chat-realtime.service.ts`: `TOPICS` and the topic regexes)

The topic builder `TOPICS` and the parsing done at the top of
`ChatRealtimeService.onMessage` via `MESSAGE_RE`, `TYPING_RE`, `SEEN_RE`
and the equality test against `TOPICS.online`.  A regex of the shape
`^<pre>([^/]+)<suf>$` is embedded as `matchSeg pre suf`, working on the
character list of the string. -/

inductive TopicKind
  | messageNew
  | typing
  | seen
  | presenceOnline
deriving DecidableEq, Repr

/-- `TOPICS`: `conversation/{id}/message/new`, `conversation/{id}/typing`,
`conversation/{id}/seen`, and the fixed literal `presence/online`. -/
def topicFor : TopicKind → String → String
  | .messageNew, cid => "conversation/" ++ cid ++ "/message/new"
  | .typing, cid => "conversation/" ++ cid ++ "/typing"
  | .seen, cid => "conversation/" ++ cid ++ "/seen"
  | .presenceOnline, _ => "presence/online"

/-- Strip a literal pattern from the front: `dropPre pat s = some r` iff
`s = pat ++ r`. -/
def dropPre : List Char → List Char → Option (List Char)
  | [], s => some s
  | _ :: _, [] => none
  | p :: ps, c :: cs => if c = p then dropPre ps cs else none

/-- Strip a literal pattern from the back. -/
def dropSuf (pat s : List Char) : Option (List Char) :=
  (dropPre pat.reverse s.reverse).map List.reverse

/-- `matchSeg pre suf s` captures the middle of `s = pre ++ mid ++ suf`
when `mid` is nonempty and slash-free — the semantics of the anchored
regexes `^<pre>([^/]+)<suf>$` used by the service. -/
def matchSeg (pre suf s : List Char) : Option (List Char) :=
  match dropPre pre s with
  | none => none
  | some r =>
    match dropSuf suf r with
    | none => none
    | some mid =>
      if mid = [] then none
      else if '/' ∈ mid then none
      else some mid

inductive ParsedTopic
  | messageNew (conversationId : String)
  | typing (conversationId : String)
  | seen (conversationId : String)
  | online
deriving DecidableEq, Repr

/-- The routing of `ChatRealtimeService.onMessage` as a pure parser: the
regexes are tried in source order (message, typing, seen), then the topic
is compared with the fixed presence topic; anything else is ignored. -/
def parseTopic (topic : String) : Option ParsedTopic :=
  match matchSeg "conversation/".data "/message/new".data topic.data with
  | some cid => some (.messageNew ⟨cid⟩)
  | none =>
    match matchSeg "conversation/".data "/typing".data topic.data with
    | some cid => some (.typing ⟨cid⟩)
    | none =>
      match matchSeg "conversation/".data "/seen".data topic.data with
      | some cid => some (.seen ⟨cid⟩)
      | none =>
        if topic = "presence/online" then some .online else none

/-- The topic a parse result denotes. -/
def ParsedTopic.toTopic : ParsedTopic → String
  | .messageNew cid => topicFor .messageNew cid
  | .typing cid => topicFor .typing cid
  | .seen cid => topicFor .seen cid
  | .online => "presence/online"

/-- The parse result the builder input should round-trip to. -/
def expectedParse : TopicKind → String → ParsedTopic
  | .messageNew, cid => .messageNew cid
  | .typing, cid => .typing cid
  | .seen, cid => .seen cid
  | .presenceOnline, _ => .online

/-! ## Realtime-bridge publish helpers (`ChatRealtimeService`) -/

structure PublishCmd where
  topic : String
  qos : Nat
  retain : Bool
deriving DecidableEq, Repr

/-- The effective wire parameters after `TelegramMqttClient.publish`
applies its defaults `qos: options.qos ?? 1`, `retain: options.retain ??
false`. -/
def effectiveCmd (topic : String) (o : PublishOptions) : PublishCmd :=
  { topic := topic, qos := o.qos.getD 1, retain := o.retain.getD false }

namespace ChatRealtimeService

/-- `publishMessage`: `client.publish(TOPICS.messageNew(id), payload)`,
no options object. -/
def publishMessageCmd (conversationId : String) : PublishCmd :=
  effectiveCmd (topicFor .messageNew conversationId) { qos := none, retain := none }

/-- `publishTyping`: options `{ qos: 0, retain: false }`. -/
def publishTypingCmd (conversationId : String) : PublishCmd :=
  effectiveCmd (topicFor .typing conversationId) { qos := some 0, retain := some false }

/-- `publishSeen`: options `{ qos: 0, retain: false }`. -/
def publishSeenCmd (conversationId : String) : PublishCmd :=
  effectiveCmd (topicFor .seen conversationId) { qos := some 0, retain := some false }

end ChatRealtimeService

/-! ## Conversation store (`src/lib/store.ts`, the realtime-wired revision) -/

inductive MessageStatus
  | sending
  | sent
  | delivered
  | seen
  | failed
deriving DecidableEq, Repr

/-- `Message` of `src/lib/types.ts`. -/
structure LibMessage where
  id : String
  conversationId : String
  senderId : String
  text : String
  timestamp : String
  status : MessageStatus
  seenBy : Option (List String)
  read : Option Bool
deriving DecidableEq, Repr

structure LibConversation where
  id : String
  participants : List String
  lastMessage : Option LibMessage
  unreadCount : Nat
  pinned : Bool
  muted : Bool
deriving DecidableEq, Repr

/-- The store slices touched by the realtime callbacks. -/
structure LibChatState where
  messages : List (String × List LibMessage)
  conversations : List LibConversation
  typingUsers : List (String × List String)
deriving DecidableEq, Repr

namespace LibChatState

/-- `addMessage`: appends to the conversation's message list
unconditionally and updates the conversation's `lastMessage`. -/
def addMessage (st : LibChatState) (conversationId : String) (message : LibMessage) :
    LibChatState :=
  { st with
    messages := mset st.messages conversationId
      (((mget st.messages conversationId).getD []) ++ [message])
    conversations := st.conversations.map (fun c =>
      if c.id = conversationId then { c with lastMessage := some message } else c) }

/-- `setTypingUser`: the source computes
`Array.from(new Set([...current, userId]))` and returns the state object
unchanged when the length did not grow; on the duplicate-free lists the
store maintains this is a membership test on `current`. -/
def setTypingUser (st : LibChatState) (conversationId userId : String) : LibChatState :=
  if ((mget st.typingUsers conversationId).getD []).contains userId = true then st
  else
    { st with
      typingUsers :=
        mset st.typingUsers conversationId
          (((mget st.typingUsers conversationId).getD []) ++ [userId]) }

/-- `removeTypingUser`: no-op when the user is absent; removing the last
typing user deletes the conversation's entry entirely. -/
def removeTypingUser (st : LibChatState) (conversationId userId : String) : LibChatState :=
  if ((mget st.typingUsers conversationId).getD []).contains userId = false then st
  else
    if (((mget st.typingUsers conversationId).getD []).filter
        (fun i => i != userId)).isEmpty = true then
      { st with typingUsers := mdel st.typingUsers conversationId }
    else
      { st with
        typingUsers :=
          mset st.typingUsers conversationId
            (((mget st.typingUsers conversationId).getD []).filter
              (fun i => i != userId)) }

end LibChatState

/-! ## Inbound `message.new` dispatch (bridge → store) -/

/-- The decoded `MessageNewPayload`. -/
structure MessageNewPayload where
  id : String
  conversationId : String
  senderId : String
  text : String
  timestamp : String
  seenBy : Option (List String)
  read : Option Bool
deriving DecidableEq, Repr

/-- The `Message` value built in the `MESSAGE_RE` branch of
`ChatRealtimeService.onMessage` (status is always `Sent`). -/
def payloadToMessage (d : MessageNewPayload) : LibMessage :=
  { id := d.id, conversationId := d.conversationId, senderId := d.senderId,
    text := d.text, timestamp := d.timestamp, status := .sent,
    seenBy := d.seenBy, read := d.read }

/-- The `message.new` branch of `ChatRealtimeService.onMessage` wired to
the store callback `onMessage: m => addMessage(m.conversationId, m)`:
when the topic matches `MESSAGE_RE` and the payload decodes, the message
is appended; `payload = none` models a JSON parse failure (`safeParse`
returning `null`), which is silently dropped. -/
def dispatchMessageNew (st : LibChatState) (topic : String)
    (payload : Option MessageNewPayload) : LibChatState :=
  match matchSeg "conversation/".data "/message/new".data topic.data with
  | none => st
  | some _ =>
    match payload with
    | none => st
    | some d => st.addMessage d.conversationId (payloadToMessage d)

/-! ## API-backed chat store (`src/store/chat.store.ts`): optimistic send -/

/-- `Message` of `src/types/chat.types.ts`. -/
structure ApiMessage where
  id : String
  conversationId : String
  senderId : String
  text : String
  timestamp : String
  status : MessageStatus
deriving DecidableEq, Repr

structure SendMessageDto where
  conversationId : String
  text : String
deriving DecidableEq, Repr

/-- `addMessage` of the API-backed store: plain append. -/
def storeAddMessage (messages : List ApiMessage) (message : ApiMessage) : List ApiMessage :=
  messages ++ [message]

/-- The optimistic message `sendMessage` appends before the HTTP call
(`id` is the fresh `tmp-…` id, status `Sending`). -/
def optimisticMessage (payload : SendMessageDto) (senderId tempId timestamp : String) :
    ApiMessage :=
  { id := tempId, conversationId := payload.conversationId, senderId := senderId,
    text := payload.text, timestamp := timestamp, status := .sending }

/-- `sendMessage` after the HTTP call settles: on success
(`result = some message`) the optimistic entry is replaced in place by id
with the canonical server message; on rejection (`result = none`) its
status flips to `Failed`. -/
def sendMessageSettle (messages : List ApiMessage) (tempId : String)
    (result : Option ApiMessage) : List ApiMessage :=
  match result with
  | some message => messages.map (fun item => if item.id = tempId then message else item)
  | none => messages.map (fun item =>
      if item.id = tempId then { item with status := MessageStatus.failed } else item)

/-- The whole `sendMessage` flow on the message list: optimistic append,
then reconciliation with the HTTP outcome. -/
def sendMessageRun (messages : List ApiMessage) (payload : SendMessageDto)
    (senderId tempId timestamp : String) (result : Option ApiMessage) : List ApiMessage :=
  sendMessageSettle
    (storeAddMessage messages (optimisticMessage payload senderId tempId timestamp))
    tempId result

/-! ## Typing-expiry timers (`ChatRealtimeService`, typing branch)

`setTimeout` timers are modelled as explicit tasks with fresh numeric ids
and virtual-time deadlines; `typingTimers` is the service's key → timer
map.  The store's typing set rides along so that expiry and explicit stop
can be compared as whole-state effects. -/

/-- `timerKey(conversationId, userId)`. -/
def timerKey (conversationId userId : String) : String :=
  conversationId ++ "::" ++ userId

/-- A live `setTimeout` task: not yet fired and not cancelled. -/
structure TypingTask where
  tid : Nat
  conversationId : String
  userId : String
  deadline : Nat
deriving DecidableEq, Repr

def TypingTask.key (τ : TypingTask) : String := timerKey τ.conversationId τ.userId

structure BridgeState where
  store : LibChatState
  typingTimers : List (String × Nat)
  tasks : List TypingTask
  nextId : Nat
  now : Nat
deriving DecidableEq, Repr

def TYPING_TIMEOUT_MS : Nat := 3000

namespace BridgeState

/-- `clearTimer(conversationId, userId)`: `clearTimeout` the armed task
for the key, if any, and drop the map entry. -/
def clearTimer (st : BridgeState) (conversationId userId : String) : BridgeState :=
  match mget st.typingTimers (timerKey conversationId userId) with
  | none => st
  | some tid =>
    { st with
      tasks := st.tasks.filter (fun τ => τ.tid != tid)
      typingTimers := mdel st.typingTimers (timerKey conversationId userId) }

/-- `scheduleTypingClear`: always `clearTimer` first, then arm a fresh
`TYPING_TIMEOUT_MS` task and record it under the key. -/
def scheduleTypingClear (st : BridgeState) (conversationId userId : String) : BridgeState :=
  { st.clearTimer conversationId userId with
    tasks := (st.clearTimer conversationId userId).tasks
      ++ [⟨(st.clearTimer conversationId userId).nextId, conversationId, userId,
           (st.clearTimer conversationId userId).now + TYPING_TIMEOUT_MS⟩]
    typingTimers := mset (st.clearTimer conversationId userId).typingTimers
      (timerKey conversationId userId) (st.clearTimer conversationId userId).nextId
    nextId := (st.clearTimer conversationId userId).nextId + 1 }

/-- Inbound typing event with `active = true`: the `onTyping` callback
marks the user typing in the store, then the timer is (re)armed. -/
def recvTypingTrue (st : BridgeState) (conversationId userId : String) : BridgeState :=
  BridgeState.scheduleTypingClear
    { st with store := st.store.setTypingUser conversationId userId }
    conversationId userId

/-- Inbound typing event with `active = false`: the user is unmarked and
any pending timer for the key is cancelled. -/
def recvTypingFalse (st : BridgeState) (conversationId userId : String) : BridgeState :=
  BridgeState.clearTimer
    { st with store := st.store.removeTypingUser conversationId userId }
    conversationId userId

/-- The `setTimeout` callback of task `tid` firing: `onTyping(c, u, false)`
for the captured conversation/user, then the key is deleted from
`typingTimers`; the task is spent. -/
def fireTimer (st : BridgeState) (tid : Nat) : BridgeState :=
  match st.tasks.find? (fun τ => τ.tid == tid) with
  | none => st
  | some τ =>
    { st with
      store := st.store.removeTypingUser τ.conversationId τ.userId
      typingTimers := mdel st.typingTimers τ.key
      tasks := st.tasks.filter (fun τ' => τ'.tid != tid) }

/-- `clearAllTimers` (used by `stop()`). -/
def clearAllTimers (st : BridgeState) : BridgeState :=
  { st with tasks := [], typingTimers := [] }

/-- Advance the virtual clock. -/
def tick (st : BridgeState) (d : Nat) : BridgeState := { st with now := st.now + d }

end BridgeState

def initialBridgeState : BridgeState :=
  { store := { messages := [], conversations := [], typingUsers := [] }
    typingTimers := []
    tasks := []
    nextId := 0
    now := 0 }

/-- One step of the typing subsystem: an inbound typing event, a timer
firing at or after its deadline, `stop()` clearing everything, or time
passing. -/
inductive BridgeStep : BridgeState → BridgeState → Prop
  | typingStart (st : BridgeState) (c u : String) : BridgeStep st (st.recvTypingTrue c u)
  | typingStop (st : BridgeState) (c u : String) : BridgeStep st (st.recvTypingFalse c u)
  | fire (st : BridgeState) (τ : TypingTask) (hmem : τ ∈ st.tasks)
      (hd : τ.deadline ≤ st.now) : BridgeStep st (st.fireTimer τ.tid)
  | stopAll (st : BridgeState) : BridgeStep st st.clearAllTimers
  | tick (st : BridgeState) (d : Nat) : BridgeStep st (st.tick d)

inductive BridgeReachable : BridgeState → Prop
  | init : BridgeReachable initialBridgeState
  | step {s s' : BridgeState} : BridgeReachable s → BridgeStep s s' → BridgeReachable s'

/-- Timer-map well-formedness: task ids are below the allocator, ids are
unique among live tasks, and `typingTimers` binds `k ↦ tid` exactly when a
live task with id `tid` and key `k` exists. -/
def TimersWF (st : BridgeState) : Prop :=
  (∀ τ ∈ st.tasks, τ.tid < st.nextId)
  ∧ (∀ τ₁ ∈ st.tasks, ∀ τ₂ ∈ st.tasks, τ₁.tid = τ₂.tid → τ₁ = τ₂)
  ∧ (∀ k tid, mget st.typingTimers k = some tid ↔ ∃ τ ∈ st.tasks, τ.tid = tid ∧ τ.key = k)

/-- The conjunction of timer/typing properties claimed for the service,
stated over one bridge state. -/
def TypingClaims (st : BridgeState) : Prop :=
  (∀ τ₁ ∈ st.tasks, ∀ τ₂ ∈ st.tasks, τ₁.key = τ₂.key → τ₁ = τ₂)
  ∧ (∀ c u : String, ∀ τ ∈ (st.recvTypingTrue c u).tasks, τ.key = timerKey c u →
      τ = ⟨st.nextId, c, u, st.now + TYPING_TIMEOUT_MS⟩)
  ∧ (∀ c u : String,
      (⟨st.nextId, c, u, st.now + TYPING_TIMEOUT_MS⟩ : TypingTask) ∈ (st.recvTypingTrue c u).tasks
      ∧ u ∈ (mget (st.recvTypingTrue c u).store.typingUsers c).getD [])
  ∧ (∀ c u : String,
      (∀ τ ∈ (st.recvTypingFalse c u).tasks, τ.key ≠ timerKey c u)
      ∧ u ∉ (mget (st.recvTypingFalse c u).store.typingUsers c).getD [])
  ∧ (∀ τ ∈ st.tasks, st.fireTimer τ.tid = st.recvTypingFalse τ.conversationId τ.userId)

/-! ## Client factory (`getMqttClient`: singleton per URL) -/

/-- `MqttConnectionOptions` (the `extra` passthrough is omitted). -/
structure MqttConnectionOptions where
  url : String
  username : Option String
  password : Option String
  clientId : Option String
  keepalive : Option Nat
  reconnectPeriod : Option Nat
  connectTimeout : Option Nat
  protocolVersion : Option Nat
deriving DecidableEq, Repr

/-- `getMqttClient(options)` over the module-level `instances` map.  A
constructed `TelegramMqttClient` is abstracted to the options captured by
its constructor (`this.options = options`); the function returns the
client handed back to the caller and the updated registry. -/
def getMqttClient (instances : List (String × MqttConnectionOptions))
    (options : MqttConnectionOptions) :
    MqttConnectionOptions × List (String × MqttConnectionOptions) :=
  match mget instances options.url with
  | some existing => (existing, instances)
  | none => (options, instances ++ [(options.url, options)])

/-! ## Concrete states used to refute claims as stated -/

/-- Subscribe acked, then `unsubscribe` called with its broker ack still
outstanding. -/
def raceState : ClientState :=
  ((((initialState.connect).onConnect).subscribe ["conversation/c1/typing"] 1).ackSubscribe
      ["conversation/c1/typing"] 1).unsubscribe ["conversation/c1/typing"]

/-- The subscription invariant exactly as the specification states it:
`active ⊆ desired`, and no topic both pending and active. -/
def ClaimedSubscriptionInvariant (st : ClientState) : Prop :=
  (∀ t, mhas st.activeTopics t = true → mhas st.subscribedTopics t = true)
  ∧ ∀ t, t ∈ st.pendingTopics → mhas st.activeTopics t = false

/-- The amended subscription invariant: a topic may also be active while a
broker unsubscribe for it is in flight or after one failed. -/
def SubscriptionInvariant (st : ClientState) : Prop :=
  (∀ t, t ∈ st.pendingTopics → mhas st.activeTopics t = false)
  ∧ ∀ t, mhas st.activeTopics t = true →
      mhas st.subscribedTopics t = true ∨ (∃ l ∈ st.inflightUnsubs, t ∈ l)
      ∨ t ∈ st.failedUnsubs

/-! ## Concrete inputs used by witnesses -/

/-- Options of a first `getMqttClient` call. -/
def exUrlOpts1 : MqttConnectionOptions :=
  { url := "ws://broker.example:8084/mqtt", username := some "u1", password := some "p1",
    clientId := none, keepalive := none, reconnectPeriod := none, connectTimeout := none,
    protocolVersion := none }

/-- Options of a later call for the same URL with different credentials. -/
def exUrlOpts2 : MqttConnectionOptions :=
  { url := "ws://broker.example:8084/mqtt", username := some "u2", password := some "p2",
    clientId := none, keepalive := none, reconnectPeriod := none, connectTimeout := none,
    protocolVersion := none }

/-- A client state with one desired topic and one pending subscribe for
two topics, used to instantiate the subscribe-ack theorem. -/
def ackWitnessState : ClientState :=
  { hasClient := true
    status := .connected
    isDisconnecting := false
    subscribedTopics := [("conversation/c1/typing", 1)]
    activeTopics := []
    pendingTopics := ["conversation/c1/typing", "conversation/c2/typing"]
    inflightSubs := [(["conversation/c1/typing", "conversation/c2/typing"], 1)]
    inflightUnsubs := []
    failedUnsubs := [] }

/-- An empty conversation-store state. -/
def emptyLibState : LibChatState :=
  { messages := [], conversations := [], typingUsers := [] }

/-- A concrete inbound `message.new` wire event. -/
def exMsgTopic : String := "conversation/c1/message/new"

def exMsgPayload : MessageNewPayload :=
  { id := "m1", conversationId := "c1", senderId := "u1", text := "hi",
    timestamp := "10:00", seenBy := some [], read := some false }

/-- The canonical server message for the optimistic-send witness. -/
def exServerMsg : ApiMessage :=
  { id := "m1", conversationId := "c1", senderId := "u1", text := "hi",
    timestamp := "2026-01-01T10:00:00Z", status := .sent }

/-! ## Theorems -/

@[simp] theorem mget_nil {α : Type} (k : String) : mget ([] : List (String × α)) k = none := rfl

theorem mget_mdel {α : Type} (m : List (String × α)) (k k' : String) :
    mget (mdel m k) k' = if k' = k then none else mget m k' := by
  induction m with
  | nil => simp [mdel]
  | cons p rest ih =>
    simp only [mdel]
    by_cases hp : p.1 = k
    · rw [if_pos hp, ih]
      by_cases hk : k' = k
      · simp [hk]
      · have hpk' : ¬ p.1 = k' := fun h => hk (h.symm.trans hp)
        simp [mget, hk, hpk']
    · rw [if_neg hp]
      simp only [mget]
      by_cases hpk' : p.1 = k'
      · have hk : ¬ k' = k := fun h => hp (hpk'.trans h)
        simp [hpk', hk]
      · simp [hpk', ih]

theorem mget_append_left {α : Type} (m₁ m₂ : List (String × α)) (k : String) (v : α)
    (h : mget m₁ k = some v) : mget (m₁ ++ m₂) k = some v := by
  induction m₁ with
  | nil => cases h
  | cons p rest ih =>
    simp only [List.cons_append, mget] at h ⊢
    by_cases hp : p.1 = k
    · rwa [if_pos hp] at h ⊢
    · rw [if_neg hp] at h ⊢
      exact ih h

theorem mget_append_right {α : Type} (m₁ m₂ : List (String × α)) (k : String)
    (h : mget m₁ k = none) : mget (m₁ ++ m₂) k = mget m₂ k := by
  induction m₁ with
  | nil => simp
  | cons p rest ih =>
    simp only [List.cons_append, mget] at h ⊢
    by_cases hp : p.1 = k
    · rw [if_pos hp] at h
      cases h
    · rw [if_neg hp] at h ⊢
      exact ih h

theorem mget_mset {α : Type} (m : List (String × α)) (k : String) (v : α) (k' : String) :
    mget (mset m k v) k' = if k' = k then some v else mget m k' := by
  unfold mset
  by_cases hk : k' = k
  · subst hk
    rw [mget_append_right _ _ _ (by rw [mget_mdel]; simp), if_pos rfl]
    simp [mget]
  · rw [if_neg hk]
    have h := mget_mdel m k k'
    rw [if_neg hk] at h
    cases hc : mget m k' with
    | none =>
      rw [mget_append_right _ _ _ (h.trans hc)]
      simp only [mget]
      rw [if_neg (fun h' => hk h'.symm)]
    | some v' => exact mget_append_left _ _ _ _ (h.trans hc)

theorem mhas_mset {α : Type} (m : List (String × α)) (k : String) (v : α) (k' : String) :
    mhas (mset m k v) k' = (decide (k' = k) || mhas m k') := by
  by_cases hk : k' = k <;> simp [mhas, mget_mset, hk]

theorem mhas_mdel {α : Type} (m : List (String × α)) (k k' : String) :
    mhas (mdel m k) k' = (decide ¬(k' = k) && mhas m k') := by
  by_cases hk : k' = k <;> simp [mhas, mget_mdel, hk]

theorem mem_sdel (l : List String) (k x : String) :
    x ∈ sdel l k ↔ x ∈ l ∧ x ≠ k := by
  induction l with
  | nil => simp [sdel]
  | cons y rest ih =>
    simp only [sdel]
    by_cases hy : y = k
    · rw [if_pos hy, ih]
      subst hy
      simp only [List.mem_cons]
      constructor
      · exact fun h => ⟨Or.inr h.1, h.2⟩
      · rintro ⟨rfl | h1, h2⟩
        · exact absurd rfl h2
        · exact ⟨h1, h2⟩
    · rw [if_neg hy]
      simp only [List.mem_cons, ih]
      constructor
      · rintro (rfl | ⟨h1, h2⟩)
        · exact ⟨Or.inl rfl, hy⟩
        · exact ⟨Or.inr h1, h2⟩
      · rintro ⟨rfl | h1, h2⟩
        · exact Or.inl rfl
        · exact Or.inr ⟨h1, h2⟩

theorem mem_sdelAll (l ts : List String) (x : String) :
    x ∈ sdelAll l ts ↔ x ∈ l ∧ x ∉ ts := by
  induction ts generalizing l with
  | nil => simp [sdelAll]
  | cons t rest ih =>
    show x ∈ sdelAll (sdel l t) rest ↔ _
    rw [ih, mem_sdel]
    simp only [List.mem_cons, not_or]
    constructor
    · rintro ⟨⟨h1, h2⟩, h3⟩
      exact ⟨h1, h2, h3⟩
    · rintro ⟨h1, h2, h3⟩
      exact ⟨⟨h1, h2⟩, h3⟩

theorem mhas_nil (k : String) : mhas ([] : List (String × Nat)) k = false := rfl

theorem mget_mdelAll {α : Type} (m : List (String × α)) (ts : List String) (k : String) :
    mget (mdelAll m ts) k = if k ∈ ts then none else mget m k := by
  induction ts generalizing m with
  | nil => simp [mdelAll]
  | cons t rest ih =>
    show mget (mdelAll (mdel m t) rest) k = _
    rw [ih, mget_mdel]
    by_cases hk : k ∈ rest <;> by_cases ht : k = t <;>
      simp [hk, ht, List.mem_cons]

theorem mhas_mdelAll {α : Type} (m : List (String × α)) (ts : List String) (k : String) :
    mhas (mdelAll m ts) k = if k ∈ ts then false else mhas m k := by
  unfold mhas
  rw [mget_mdelAll]
  by_cases hk : k ∈ ts <;> simp [hk]

namespace ClientState

theorem setStatus_subscribedTopics (st : ClientState) (s : ConnectionStatus) :
    (st.setStatus s).subscribedTopics = st.subscribedTopics := by
  unfold setStatus; split <;> rfl

theorem setStatus_hasClient (st : ClientState) (s : ConnectionStatus) :
    (st.setStatus s).hasClient = st.hasClient := by
  unfold setStatus; split <;> rfl

theorem setStatus_status (st : ClientState) (s : ConnectionStatus) :
    (st.setStatus s).status = s := by
  unfold setStatus; split <;> rfl

theorem setStatus_inflightSubs (st : ClientState) (s : ConnectionStatus) :
    (st.setStatus s).inflightSubs = st.inflightSubs := by
  unfold setStatus; split <;> rfl

theorem setStatus_inflightUnsubs (st : ClientState) (s : ConnectionStatus) :
    (st.setStatus s).inflightUnsubs = st.inflightUnsubs := by
  unfold setStatus; split <;> rfl

theorem setStatus_failedUnsubs (st : ClientState) (s : ConnectionStatus) :
    (st.setStatus s).failedUnsubs = st.failedUnsubs := by
  unfold setStatus; split <;> rfl

theorem setStatus_active_pending (st : ClientState) (s : ConnectionStatus) :
    ((st.setStatus s).activeTopics = st.activeTopics
      ∧ (st.setStatus s).pendingTopics = st.pendingTopics)
    ∨ ((st.setStatus s).activeTopics = []
      ∧ (st.setStatus s).pendingTopics = []) := by
  unfold setStatus; split
  · exact Or.inr ⟨rfl, rfl⟩
  · exact Or.inl ⟨rfl, rfl⟩

theorem disjoint_setStatus {st : ClientState} (s : ConnectionStatus)
    (h : PendingActiveDisjoint st) : PendingActiveDisjoint (st.setStatus s) := by
  rcases setStatus_active_pending st s with ⟨ha, hp⟩ | ⟨ha, hp⟩ <;> intro t ht
  · rw [hp] at ht; rw [ha]; exact h t ht
  · rw [hp] at ht; exact absurd ht (List.not_mem_nil t)

theorem justified_setStatus {st : ClientState} (s : ConnectionStatus)
    (h : ActiveJustified st) : ActiveJustified (st.setStatus s) := by
  rcases setStatus_active_pending st s with ⟨ha, hp⟩ | ⟨ha, hp⟩ <;> intro t ht
  · rw [ha] at ht
    rw [setStatus_subscribedTopics, setStatus_inflightUnsubs, setStatus_failedUnsubs]
    exact h t ht
  · rw [ha] at ht
    simp [mhas] at ht

theorem inv_setStatus_not_connected {st : ClientState} {s : ConnectionStatus}
    (hs : s ≠ .connected) (hd : PendingActiveDisjoint st) (hj : ActiveJustified st) :
    ClientInv (st.setStatus s) := by
  refine ⟨disjoint_setStatus s hd, justified_setStatus s hj, ?_⟩
  intro hc
  rw [setStatus_status] at hc
  exact absurd hc hs

theorem grantStep_frame (qos : Nat) (acc : ClientState × List String) (t : String) :
    (grantStep qos acc t).1.status = acc.1.status
    ∧ (grantStep qos acc t).1.hasClient = acc.1.hasClient
    ∧ (grantStep qos acc t).1.isDisconnecting = acc.1.isDisconnecting
    ∧ (grantStep qos acc t).1.subscribedTopics = acc.1.subscribedTopics
    ∧ (grantStep qos acc t).1.inflightSubs = acc.1.inflightSubs
    ∧ (grantStep qos acc t).1.inflightUnsubs = acc.1.inflightUnsubs
    ∧ (grantStep qos acc t).1.failedUnsubs = acc.1.failedUnsubs := by
  unfold grantStep; split <;> exact ⟨rfl, rfl, rfl, rfl, rfl, rfl, rfl⟩

theorem grantFold_frame (qos : Nat) (fresh : List String) :
    ∀ acc : ClientState × List String,
      (fresh.foldl (grantStep qos) acc).1.status = acc.1.status
      ∧ (fresh.foldl (grantStep qos) acc).1.hasClient = acc.1.hasClient
      ∧ (fresh.foldl (grantStep qos) acc).1.isDisconnecting = acc.1.isDisconnecting
      ∧ (fresh.foldl (grantStep qos) acc).1.subscribedTopics = acc.1.subscribedTopics
      ∧ (fresh.foldl (grantStep qos) acc).1.inflightSubs = acc.1.inflightSubs
      ∧ (fresh.foldl (grantStep qos) acc).1.inflightUnsubs = acc.1.inflightUnsubs
      ∧ (fresh.foldl (grantStep qos) acc).1.failedUnsubs = acc.1.failedUnsubs := by
  induction fresh with
  | nil => intro acc; exact ⟨rfl, rfl, rfl, rfl, rfl, rfl, rfl⟩
  | cons t rest ih =>
    intro acc
    have h := ih (grantStep qos acc t)
    have hg := grantStep_frame qos acc t
    exact ⟨h.1.trans hg.1, h.2.1.trans hg.2.1, h.2.2.1.trans hg.2.2.1,
      h.2.2.2.1.trans hg.2.2.2.1, h.2.2.2.2.1.trans hg.2.2.2.2.1,
      h.2.2.2.2.2.1.trans hg.2.2.2.2.2.1, h.2.2.2.2.2.2.trans hg.2.2.2.2.2.2⟩

theorem grantStep_disjoint {qos : Nat} {acc : ClientState × List String} {t : String}
    (h : PendingActiveDisjoint acc.1) : PendingActiveDisjoint (grantStep qos acc t).1 := by
  unfold grantStep; split
  · intro u hu
    simp only at hu ⊢
    rw [mem_sdel] at hu
    rw [mhas_mset]
    simp [hu.2, h u hu.1]
  · intro u hu
    simp only at hu ⊢
    rw [mem_sdel] at hu
    exact h u hu.1

theorem grantStep_justified {qos : Nat} {acc : ClientState × List String} {t : String}
    (h : ActiveJustified acc.1) : ActiveJustified (grantStep qos acc t).1 := by
  unfold grantStep; split
  case isTrue hsub =>
    intro u hu
    simp only at hu ⊢
    rw [mhas_mset, Bool.or_eq_true] at hu
    rcases hu with h1 | h1
    · have : u = t := of_decide_eq_true h1
      subst this
      exact Or.inl hsub
    · exact h u h1
  case isFalse =>
    intro u hu
    simp only at hu ⊢
    exact h u hu

theorem grantFold_inv (qos : Nat) (fresh : List String) :
    ∀ acc : ClientState × List String,
      PendingActiveDisjoint acc.1 → ActiveJustified acc.1 →
      PendingActiveDisjoint (fresh.foldl (grantStep qos) acc).1
      ∧ ActiveJustified (fresh.foldl (grantStep qos) acc).1 := by
  induction fresh with
  | nil => intro acc h1 h2; exact ⟨h1, h2⟩
  | cons t rest ih =>
    intro acc h1 h2
    exact ih (grantStep qos acc t) (grantStep_disjoint h1) (grantStep_justified h2)

theorem mhas_foldSet_mono (qos : Nat) (ts : List String) :
    ∀ (m : List (String × Nat)) (t : String), mhas m t = true →
      mhas (ts.foldl (fun m u => mset m u qos) m) t = true := by
  induction ts with
  | nil => intro m t h; exact h
  | cons a rest ih =>
    intro m t h
    apply ih
    rw [mhas_mset, Bool.or_eq_true]
    exact Or.inr h

theorem inv_connect {st : ClientState} (h : ClientInv st) : ClientInv st.connect := by
  unfold connect
  split
  · exact h
  · exact inv_setStatus_not_connected (by decide) h.1 h.2.1

theorem inv_onConnect {st : ClientState} (hcl : st.hasClient = true) (h : ClientInv st) :
    ClientInv st.onConnect := by
  obtain ⟨hd, hj, _⟩ := h
  unfold onConnect
  refine ⟨disjoint_setStatus _ hd, justified_setStatus _ hj, ?_⟩
  intro _
  rw [setStatus_hasClient]
  exact hcl

theorem inv_onReconnect {st : ClientState} (h : ClientInv st) : ClientInv st.onReconnect := by
  unfold onReconnect
  split
  · exact h
  · exact inv_setStatus_not_connected (by decide) h.1 h.2.1

theorem inv_onError {st : ClientState} (h : ClientInv st) : ClientInv st.onError := by
  unfold onError
  split
  · exact h
  · exact inv_setStatus_not_connected (by decide) h.1 h.2.1

theorem inv_onClose {st : ClientState} (h : ClientInv st) : ClientInv st.onClose := by
  unfold onClose
  split
  · exact h
  · exact inv_setStatus_not_connected (by decide) h.1 h.2.1

theorem inv_onOffline {st : ClientState} (h : ClientInv st) : ClientInv st.onOffline := by
  unfold onOffline
  split
  · exact h
  · exact inv_setStatus_not_connected (by decide) h.1 h.2.1

theorem inv_subscribe {st : ClientState} (topics : List String) (qos : Nat)
    (h : ClientInv st) : ClientInv (st.subscribe topics qos) := by
  obtain ⟨hd, hj, hc⟩ := h
  unfold subscribe
  split
  · exact ⟨hd, hj, hc⟩
  · dsimp only
    split
    · -- no fresh topics: only `subscribedTopics` changed
      refine ⟨fun t ht => hd t ht, ?_, hc⟩
      intro t ht
      have ht' : mhas st.activeTopics t = true := ht
      rcases hj t ht' with h1 | h1 | h1
      · exact Or.inl (mhas_foldSet_mono qos _ _ _ h1)
      · exact Or.inr (Or.inl h1)
      · exact Or.inr (Or.inr h1)
    · refine ⟨?_, ?_, hc⟩
      · intro t ht
        have ht' : t ∈ st.pendingTopics ++ topics.dedup.filter (fun t =>
            !(mhas st.activeTopics t) && !(st.pendingTopics.contains t)) := ht
        show mhas st.activeTopics t = false
        rcases List.mem_append.1 ht' with h1 | h1
        · exact hd t h1
        · have hpred := (List.mem_filter.1 h1).2
          rw [Bool.and_eq_true] at hpred
          have h2 := hpred.1
          cases hb : mhas st.activeTopics t
          · rfl
          · rw [hb] at h2
            simp at h2
      · intro t ht
        have ht' : mhas st.activeTopics t = true := ht
        rcases hj t ht' with h1 | h1 | h1
        · exact Or.inl (mhas_foldSet_mono qos _ _ _ h1)
        · exact Or.inr (Or.inl h1)
        · exact Or.inr (Or.inr h1)

theorem inv_ackSubscribe {st : ClientState} (fresh : List String) (qos : Nat)
    (h : ClientInv st) : ClientInv (st.ackSubscribe fresh qos) := by
  obtain ⟨hd, hj, hc⟩ := h
  unfold ackSubscribe subscribeGranted
  dsimp only
  have hd1 : PendingActiveDisjoint
      ({ st with inflightSubs := st.inflightSubs.erase (fresh, qos) } : ClientState) := hd
  have hj1 : ActiveJustified
      ({ st with inflightSubs := st.inflightSubs.erase (fresh, qos) } : ClientState) := hj
  obtain ⟨hd2, hj2⟩ := grantFold_inv qos fresh
    ({ st with inflightSubs := st.inflightSubs.erase (fresh, qos) }, ([] : List String)) hd1 hj1
  refine ⟨hd2, hj2, ?_⟩
  intro hcon
  have hf := grantFold_frame qos fresh
    ({ st with inflightSubs := st.inflightSubs.erase (fresh, qos) }, [])
  rw [hf.2.1]
  rw [hf.1] at hcon
  exact hc hcon

theorem inv_ackSubscribeFailed {st : ClientState} (fresh : List String) (qos : Nat)
    (h : ClientInv st) : ClientInv (st.ackSubscribeFailed fresh qos) := by
  obtain ⟨hd, hj, hc⟩ := h
  refine ⟨?_, hj, hc⟩
  intro t ht
  have ht' : t ∈ sdelAll st.pendingTopics fresh := ht
  rw [mem_sdelAll] at ht'
  show mhas st.activeTopics t = false
  exact hd t ht'.1

theorem mem_unsubActiveList {st : ClientState} {topics : List String} {t : String} :
    t ∈ st.unsubActiveList topics ↔ t ∈ topics ∧ mhas st.activeTopics t = true := by
  unfold unsubActiveList
  rw [List.mem_filter]

theorem inv_unsubscribe {st : ClientState} (topics : List String)
    (h : ClientInv st) : ClientInv (st.unsubscribe topics) := by
  obtain ⟨hd, hj, hc⟩ := h
  unfold unsubscribe
  split
  · exact ⟨hd, hj, hc⟩
  · dsimp only
    split
    case isTrue hempty =>
      refine ⟨?_, ?_, hc⟩
      · intro t ht
        have ht' : t ∈ sdelAll st.pendingTopics topics := ht
        rw [mem_sdelAll] at ht'
        show mhas st.activeTopics t = false
        exact hd t ht'.1
      · intro t ht
        have ht' : mhas st.activeTopics t = true := ht
        by_cases hmem : t ∈ topics
        · exfalso
          have hin : t ∈ st.unsubActiveList topics := mem_unsubActiveList.2 ⟨hmem, ht'⟩
          rw [List.isEmpty_iff] at hempty
          rw [hempty] at hin
          exact List.not_mem_nil t hin
        · rcases hj t ht' with h1 | h1 | h1
          · left
            show mhas (mdelAll st.subscribedTopics topics) t = true
            rw [mhas_mdelAll, if_neg hmem]
            exact h1
          · exact Or.inr (Or.inl h1)
          · exact Or.inr (Or.inr h1)
    case isFalse hempty =>
      refine ⟨?_, ?_, hc⟩
      · intro t ht
        have ht' : t ∈ sdelAll st.pendingTopics topics := ht
        rw [mem_sdelAll] at ht'
        show mhas st.activeTopics t = false
        exact hd t ht'.1
      · intro t ht
        have ht' : mhas st.activeTopics t = true := ht
        by_cases hmem : t ∈ topics
        · refine Or.inr (Or.inl ⟨st.unsubActiveList topics, ?_, ?_⟩)
          · show _ ∈ st.inflightUnsubs ++ [st.unsubActiveList topics]
            exact List.mem_append.2 (Or.inr (List.mem_singleton.2 rfl))
          · exact mem_unsubActiveList.2 ⟨hmem, ht'⟩
        · rcases hj t ht' with h1 | h1 | h1
          · left
            show mhas (mdelAll st.subscribedTopics topics) t = true
            rw [mhas_mdelAll, if_neg hmem]
            exact h1
          · rcases h1 with ⟨l, hl, htl⟩
            refine Or.inr (Or.inl ⟨l, ?_, htl⟩)
            show _ ∈ st.inflightUnsubs ++ [st.unsubActiveList topics]
            exact List.mem_append.2 (Or.inl hl)
          · exact Or.inr (Or.inr h1)

theorem inv_unsubscribeAcked {st : ClientState} (lst : List String)
    (h : ClientInv st) : ClientInv (st.unsubscribeAcked lst) := by
  obtain ⟨hd, hj, hc⟩ := h
  refine ⟨?_, ?_, hc⟩
  · intro t ht
    have ht' : t ∈ st.pendingTopics := ht
    show mhas (mdelAll st.activeTopics lst) t = false
    rw [mhas_mdelAll]
    by_cases hmem : t ∈ lst
    · rw [if_pos hmem]
    · rw [if_neg hmem]
      exact hd t ht'
  · intro t ht
    have ht' : mhas (mdelAll st.activeTopics lst) t = true := ht
    rw [mhas_mdelAll] at ht'
    by_cases hmem : t ∈ lst
    · rw [if_pos hmem] at ht'
      cases ht'
    · rw [if_neg hmem] at ht'
      rcases hj t ht' with h1 | h1 | h1
      · exact Or.inl h1
      · rcases h1 with ⟨l, hl, htl⟩
        by_cases hll : l = lst
        · exact absurd (hll ▸ htl) hmem
        · exact Or.inr (Or.inl ⟨l, (List.mem_erase_of_ne hll).2 hl, htl⟩)
      · exact Or.inr (Or.inr h1)

theorem inv_unsubscribeFailed {st : ClientState} (lst : List String)
    (h : ClientInv st) : ClientInv (st.unsubscribeFailed lst) := by
  obtain ⟨hd, hj, hc⟩ := h
  refine ⟨fun t ht => hd t ht, ?_, hc⟩
  intro t ht
  have ht' : mhas st.activeTopics t = true := ht
  rcases hj t ht' with h1 | h1 | h1
  · exact Or.inl h1
  · rcases h1 with ⟨l, hl, htl⟩
    by_cases hll : l = lst
    · refine Or.inr (Or.inr ?_)
      show t ∈ st.failedUnsubs ++ lst
      exact List.mem_append.2 (Or.inr (hll ▸ htl))
    · exact Or.inr (Or.inl ⟨l, (List.mem_erase_of_ne hll).2 hl, htl⟩)
  · refine Or.inr (Or.inr ?_)
    show t ∈ st.failedUnsubs ++ lst
    exact List.mem_append.2 (Or.inl h1)

theorem inv_disconnectNoClient {st : ClientState} : ClientInv st.disconnectNoClient := by
  unfold disconnectNoClient
  apply inv_setStatus_not_connected (by decide)
  · intro t ht
    exact absurd ht (List.not_mem_nil t)
  · intro t ht
    have ht' : mhas ([] : List (String × Nat)) t = true := ht
    rw [mhas_nil] at ht'
    cases ht'

theorem inv_disconnectBegin {st : ClientState} (h : ClientInv st) :
    ClientInv st.disconnectBegin := h

theorem inv_disconnect {st : ClientState} (h : ClientInv st) : ClientInv st.disconnect := by
  unfold disconnect
  split
  · exact inv_disconnectNoClient
  · exact inv_disconnectBegin h

theorem inv_disconnectEnd {st : ClientState} : ClientInv st.disconnectEnd := by
  refine ⟨?_, ?_, ?_⟩
  · intro t ht
    have ht' : t ∈ ([] : List String) := ht
    exact absurd ht' (List.not_mem_nil t)
  · intro t ht
    have ht' : mhas ([] : List (String × Nat)) t = true := ht
    rw [mhas_nil] at ht'
    cases ht'
  · intro hc
    exact ConnectionStatus.noConfusion hc

end ClientState


/-- All reachable transport-client states satisfy the bookkeeping
invariants. -/
theorem clientInv_of_reachable {st : ClientState} (h : Reachable st) : ClientInv st := by
  induction h with
  | init =>
    refine ⟨?_, ?_, ?_⟩
    · intro t ht
      exact absurd ht (List.not_mem_nil t)
    · intro t ht
      have ht' : mhas ([] : List (String × Nat)) t = true := ht
      rw [mhas_nil] at ht'
      cases ht'
    · intro hc
      exact absurd hc (by decide)
  | step _ hstep ih =>
    cases hstep with
    | connectCall => exact ClientState.inv_connect ih
    | brokerConnect hcl => exact ClientState.inv_onConnect hcl ih
    | brokerReconnect _ => exact ClientState.inv_onReconnect ih
    | brokerError _ => exact ClientState.inv_onError ih
    | brokerClose _ => exact ClientState.inv_onClose ih
    | brokerOffline _ => exact ClientState.inv_onOffline ih
    | subscribeCall topics qos => exact ClientState.inv_subscribe topics qos ih
    | subscribeAck fresh qos _ => exact ClientState.inv_ackSubscribe fresh qos ih
    | subscribeAckFailed fresh qos _ => exact ClientState.inv_ackSubscribeFailed fresh qos ih
    | unsubscribeCall topics => exact ClientState.inv_unsubscribe topics ih
    | unsubscribeAck lst _ => exact ClientState.inv_unsubscribeAcked lst ih
    | unsubscribeAckFailed lst _ => exact ClientState.inv_unsubscribeFailed lst ih
    | disconnectCall => exact ClientState.inv_disconnect ih
    | disconnectDone _ => exact ClientState.inv_disconnectEnd

/-! ### C3 — outbound QoS / retain -/

/-- C3 counterexample: the claim says `publishSeen` uses QoS 1
(at-least-once), but the service publishes seen events with
`{ qos: 0, retain: false }`, so the effective QoS is 0. -/
theorem publishSeen_qos_counterexample :
    (ChatRealtimeService.publishSeenCmd "c1").qos = 0
    ∧ (ChatRealtimeService.publishSeenCmd "c1").qos ≠ 1 :=
  ⟨rfl, by decide⟩

/-- C3 amended: `publishMessage` publishes at QoS 1 (the
`options.qos ?? 1` default), `publishTyping` and `publishSeen` publish at
QoS 0, and none of the three sets the retain flag; each targets its
conversation topic. -/
theorem publish_qos_retain (conversationId : String) :
    (ChatRealtimeService.publishMessageCmd conversationId).qos = 1
    ∧ (ChatRealtimeService.publishTypingCmd conversationId).qos = 0
    ∧ (ChatRealtimeService.publishSeenCmd conversationId).qos = 0
    ∧ (ChatRealtimeService.publishMessageCmd conversationId).retain = false
    ∧ (ChatRealtimeService.publishTypingCmd conversationId).retain = false
    ∧ (ChatRealtimeService.publishSeenCmd conversationId).retain = false
    ∧ (ChatRealtimeService.publishMessageCmd conversationId).topic
        = topicFor .messageNew conversationId
    ∧ (ChatRealtimeService.publishTypingCmd conversationId).topic
        = topicFor .typing conversationId
    ∧ (ChatRealtimeService.publishSeenCmd conversationId).topic
        = topicFor .seen conversationId :=
  ⟨rfl, rfl, rfl, rfl, rfl, rfl, rfl, rfl, rfl⟩

/-! ### C8 — status transitions to `reconnecting` / `disconnected` -/

/-- C8: `setStatus` — the single place where status transitions happen —
empties `activeTopics` and `pendingTopics` on entering `reconnecting` or
`disconnected`, while `subscribedTopics` (with its per-topic QoS values)
is left untouched. -/
theorem setStatus_clears_active_pending (st : ClientState) (s : ConnectionStatus)
    (h : s = ConnectionStatus.reconnecting ∨ s = ConnectionStatus.disconnected) :
    (st.setStatus s).activeTopics = [] ∧ (st.setStatus s).pendingTopics = []
    ∧ (st.setStatus s).subscribedTopics = st.subscribedTopics
    ∧ (st.setStatus s).status = s := by
  unfold ClientState.setStatus
  rw [if_pos h]
  exact ⟨rfl, rfl, rfl, rfl⟩

theorem setStatus_clears_active_pending_witness :
    (ConnectionStatus.reconnecting = ConnectionStatus.reconnecting
      ∨ ConnectionStatus.reconnecting = ConnectionStatus.disconnected)
    ∧ ((ackWitnessState.setStatus .reconnecting).activeTopics = []
      ∧ (ackWitnessState.setStatus .reconnecting).pendingTopics = []
      ∧ (ackWitnessState.setStatus .reconnecting).subscribedTopics
          = ackWitnessState.subscribedTopics
      ∧ (ackWitnessState.setStatus .reconnecting).status = .reconnecting) :=
  ⟨Or.inl rfl,
    setStatus_clears_active_pending ackWitnessState .reconnecting (Or.inl rfl)⟩

/-! ### C10 — the per-URL client registry -/

/-- C10: `getMqttClient` is keyed solely by `options.url`: a first call
caches a client built from that call's options; any later call with the
same URL returns the cached client and leaves the registry unchanged —
the later call's options (different credentials included) are ignored. -/
theorem getMqttClient_registry :
    (∀ (reg : List (String × MqttConnectionOptions)) (opts : MqttConnectionOptions),
      mget reg opts.url = none →
      getMqttClient reg opts = (opts, reg ++ [(opts.url, opts)]))
    ∧ (∀ (reg : List (String × MqttConnectionOptions))
        (opts existing : MqttConnectionOptions),
      mget reg opts.url = some existing →
      getMqttClient reg opts = (existing, reg))
    ∧ (∀ opts1 opts2 : MqttConnectionOptions, opts2.url = opts1.url →
      (getMqttClient (getMqttClient [] opts1).2 opts2).1 = opts1) := by
  refine ⟨?_, ?_, ?_⟩
  · intro reg opts h
    unfold getMqttClient
    rw [h]
  · intro reg opts existing h
    unfold getMqttClient
    rw [h]
  · intro opts1 opts2 hurl
    have h1 : getMqttClient [] opts1 = (opts1, [(opts1.url, opts1)]) := rfl
    rw [h1]
    have h2 : mget [(opts1.url, opts1)] opts2.url = some opts1 := by
      rw [hurl]
      simp [mget]
    unfold getMqttClient
    rw [h2]

theorem getMqttClient_registry_witness :
    exUrlOpts2.url = exUrlOpts1.url
    ∧ (getMqttClient (getMqttClient [] exUrlOpts1).2 exUrlOpts2).1 = exUrlOpts1 :=
  ⟨rfl, getMqttClient_registry.2.2 exUrlOpts1 exUrlOpts2 rfl⟩

/-! ### C2 — the subscription-bookkeeping invariant -/

/-- C2 counterexample: `active ⊆ desired` fails in a reachable state.
After a subscribe is acknowledged and `unsubscribe` is called but its
broker ack has not arrived yet, the topic is no longer desired, not
pending, and still active. -/
theorem subscription_invariant_counterexample :
    Reachable raceState ∧ ¬ ClaimedSubscriptionInvariant raceState := by
  constructor
  · have h1 : Reachable initialState.connect :=
      Reachable.step Reachable.init (Step.connectCall _)
    have h2 : Reachable initialState.connect.onConnect :=
      Reachable.step h1 (Step.brokerConnect _ (by decide))
    have h3 : Reachable (initialState.connect.onConnect.subscribe
        ["conversation/c1/typing"] 1) :=
      Reachable.step h2 (Step.subscribeCall _ _ _)
    have h4 : Reachable ((initialState.connect.onConnect.subscribe
        ["conversation/c1/typing"] 1).ackSubscribe ["conversation/c1/typing"] 1) :=
      Reachable.step h3 (Step.subscribeAck _ _ _ (by decide))
    exact Reachable.step h4 (Step.unsubscribeCall _ _)
  · intro hinv
    exact absurd (hinv.1 "conversation/c1/typing" (by decide)) (by decide)

/-- C2 amended: in every reachable state no topic is both pending and
active, and every active topic is desired *or* has a broker unsubscribe
in flight for it *or* had a broker unsubscribe fail for it (the window
between `unsubscribe()` removing a topic from `desired` and the broker
ack removing it from `active`). -/
theorem subscription_invariant_reachable (st : ClientState) (h : Reachable st) :
    SubscriptionInvariant st :=
  ⟨(clientInv_of_reachable h).1, (clientInv_of_reachable h).2.1⟩

theorem subscription_invariant_reachable_witness :
    Reachable initialState ∧ SubscriptionInvariant initialState :=
  ⟨Reachable.init, subscription_invariant_reachable initialState Reachable.init⟩

/-! ### C6 — the publish guard -/

/-- C6 counterexample: `publish` does not reject in every non-`connected`
state.  Right after `connect()` is called the status is `connecting`, yet
a publish is handed to the broker library instead of rejecting. -/
theorem publish_guard_counterexample :
    Reachable initialState.connect
    ∧ initialState.connect.status ≠ ConnectionStatus.connected
    ∧ initialState.connect.publish "conversation/c1/typing" "x"
        { qos := none, retain := none } ≠ PublishResult.rejected :=
  ⟨Reachable.step Reachable.init (Step.connectCall _), by decide, by decide⟩

/-- C6 amended: `publish` rejects exactly when no client instance exists
(before the first `connect()` or after `disconnect()` completes); in
every reachable `connected` state the publish is handed to the broker
with the effective defaults `qos ?? 1` and `retain ?? false`. -/
theorem publish_rejects_iff_no_client :
    (∀ (st : ClientState) (topic payload : String) (o : PublishOptions),
      st.publish topic payload o = PublishResult.rejected ↔ st.hasClient = false)
    ∧ (∀ st : ClientState, Reachable st → st.status = ConnectionStatus.connected →
      ∀ (topic payload : String) (o : PublishOptions),
        st.publish topic payload o
          = PublishResult.issued topic payload (o.qos.getD 1) (o.retain.getD false)) := by
  constructor
  · intro st topic payload o
    unfold ClientState.publish
    by_cases hc : st.hasClient = false
    · simp [hc]
    · simp [hc]
  · intro st hr hs topic payload o
    have hcl : st.hasClient = true := (clientInv_of_reachable hr).2.2 hs
    unfold ClientState.publish
    rw [if_neg (by rw [hcl]; exact fun hcon => Bool.noConfusion hcon)]

theorem publish_rejects_iff_no_client_witness :
    (Reachable initialState.connect.onConnect
      ∧ initialState.connect.onConnect.status = ConnectionStatus.connected)
    ∧ initialState.connect.onConnect.publish "conversation/c1/seen" "x"
        { qos := none, retain := none }
      = PublishResult.issued "conversation/c1/seen" "x" 1 false := by
  have hr : Reachable initialState.connect.onConnect :=
    Reachable.step (Reachable.step Reachable.init (Step.connectCall _))
      (Step.brokerConnect _ (by decide))
  exact ⟨⟨hr, by decide⟩,
    publish_rejects_iff_no_client.2 _ hr (by decide) "conversation/c1/seen" "x" _⟩

/-! ### C1 — the subscribe-ack race guard -/

theorem grantStep_untouched (qos : Nat) (acc : ClientState × List String) (a t : String)
    (hne : t ≠ a) :
    mget (ClientState.grantStep qos acc a).1.activeTopics t = mget acc.1.activeTopics t
    ∧ (t ∈ (ClientState.grantStep qos acc a).1.pendingTopics ↔ t ∈ acc.1.pendingTopics)
    ∧ (t ∈ (ClientState.grantStep qos acc a).2 ↔ t ∈ acc.2) := by
  unfold ClientState.grantStep
  split
  · refine ⟨?_, ?_, Iff.rfl⟩
    · show mget (mset acc.1.activeTopics a qos) t = _
      rw [mget_mset, if_neg hne]
    · show t ∈ sdel acc.1.pendingTopics a ↔ _
      rw [mem_sdel]
      exact ⟨fun h => h.1, fun h => ⟨h, hne⟩⟩
  · refine ⟨rfl, ?_, ?_⟩
    · show t ∈ sdel acc.1.pendingTopics a ↔ _
      rw [mem_sdel]
      exact ⟨fun h => h.1, fun h => ⟨h, hne⟩⟩
    · show t ∈ acc.2 ++ [a] ↔ t ∈ acc.2
      rw [List.mem_append]
      constructor
      · rintro (h | h)
        · exact h
        · rw [List.mem_singleton] at h
          exact absurd h hne
      · exact Or.inl

theorem grantFold_untouched (qos : Nat) (fresh : List String) :
    ∀ (acc : ClientState × List String) (t : String), t ∉ fresh →
      mget (fresh.foldl (ClientState.grantStep qos) acc).1.activeTopics t
        = mget acc.1.activeTopics t
      ∧ (t ∈ (fresh.foldl (ClientState.grantStep qos) acc).1.pendingTopics
          ↔ t ∈ acc.1.pendingTopics)
      ∧ (t ∈ (fresh.foldl (ClientState.grantStep qos) acc).2 ↔ t ∈ acc.2) := by
  induction fresh with
  | nil => intro acc t _; exact ⟨rfl, Iff.rfl, Iff.rfl⟩
  | cons a rest ih =>
    intro acc t hmem
    rw [List.mem_cons, not_or] at hmem
    have hstep := grantStep_untouched qos acc a t hmem.1
    have hfold := ih (ClientState.grantStep qos acc a) t hmem.2
    exact ⟨hfold.1.trans hstep.1, hfold.2.1.trans hstep.2.1, hfold.2.2.trans hstep.2.2⟩

/-- C1: in the subscribe grant callback, every topic of the broker request
that is still desired moves from pending to active with the request QoS,
while a topic no longer desired is left pending-free, is not activated,
and an immediate broker unsubscribe is issued for it (the second
component of `subscribeGranted` collects those). -/
theorem subscribe_ack_race (st : ClientState) (fresh : List String) (qos : Nat) (t : String)
    (hmem : t ∈ fresh) (hnd : fresh.Nodup) (hact : mhas st.activeTopics t = false) :
    (mhas st.subscribedTopics t = true →
      mget (st.subscribeGranted fresh qos).1.activeTopics t = some qos
      ∧ t ∉ (st.subscribeGranted fresh qos).1.pendingTopics)
    ∧ (mhas st.subscribedTopics t = false →
      mhas (st.subscribeGranted fresh qos).1.activeTopics t = false
      ∧ t ∈ (st.subscribeGranted fresh qos).2
      ∧ t ∉ (st.subscribeGranted fresh qos).1.pendingTopics) := by
  obtain ⟨l₁, l₂, rfl⟩ := List.append_of_mem hmem
  have hsplit := List.nodup_append.1 hnd
  have hl₂ : t ∉ l₂ := by
    have hcons := hsplit.2.1
    rw [List.nodup_cons] at hcons
    exact hcons.1
  have hl₁ : t ∉ l₁ := fun hmem1 => hsplit.2.2 hmem1 (List.mem_cons_self t l₂)
  unfold ClientState.subscribeGranted
  rw [List.foldl_append, List.foldl_cons]
  have huntedA := grantFold_untouched qos l₁ (st, ([] : List String)) t hl₁
  have hframe := ClientState.grantFold_frame qos l₁ (st, ([] : List String))
  set A := List.foldl (ClientState.grantStep qos) (st, ([] : List String)) l₁ with hA
  have hactA : mget A.1.activeTopics t = none := by
    rw [huntedA.1]
    cases hmg : mget st.activeTopics t with
    | none => rfl
    | some v =>
      unfold mhas at hact
      rw [hmg] at hact
      simp at hact
  have hsubA : A.1.subscribedTopics = st.subscribedTopics := hframe.2.2.2.1
  constructor
  · intro hsub
    have hcond : mhas A.1.subscribedTopics t = true := by rw [hsubA]; exact hsub
    have hstep : ClientState.grantStep qos A t
        = ({ A.1 with
             pendingTopics := sdel A.1.pendingTopics t
             activeTopics := mset A.1.activeTopics t qos }, A.2) := by
      unfold ClientState.grantStep
      rw [if_pos hcond]
    rw [hstep]
    have hunted₂ := grantFold_untouched qos l₂
      (({ A.1 with
          pendingTopics := sdel A.1.pendingTopics t
          activeTopics := mset A.1.activeTopics t qos }, A.2)) t hl₂
    constructor
    · rw [hunted₂.1]
      show mget (mset A.1.activeTopics t qos) t = some qos
      rw [mget_mset, if_pos rfl]
    · intro hmempend
      have hpend := hunted₂.2.1.1 hmempend
      have h2 : t ∈ sdel A.1.pendingTopics t := hpend
      rw [mem_sdel] at h2
      exact h2.2 rfl
  · intro hsub
    have hcond : ¬ mhas A.1.subscribedTopics t = true := by
      rw [hsubA, hsub]
      exact fun hcon => Bool.noConfusion hcon
    have hstep : ClientState.grantStep qos A t
        = ({ A.1 with pendingTopics := sdel A.1.pendingTopics t }, A.2 ++ [t]) := by
      unfold ClientState.grantStep
      rw [if_neg hcond]
    rw [hstep]
    have hunted₂ := grantFold_untouched qos l₂
      (({ A.1 with pendingTopics := sdel A.1.pendingTopics t }, A.2 ++ [t])) t hl₂
    refine ⟨?_, ?_, ?_⟩
    · unfold mhas
      rw [hunted₂.1]
      show (mget A.1.activeTopics t).isSome = false
      rw [hactA]
      rfl
    · exact hunted₂.2.2.2 (List.mem_append.2 (Or.inr (List.mem_singleton.2 rfl)))
    · intro hmempend
      have hpend := hunted₂.2.1.1 hmempend
      have h2 : t ∈ sdel A.1.pendingTopics t := hpend
      rw [mem_sdel] at h2
      exact h2.2 rfl

theorem subscribe_ack_race_witness :
    ("conversation/c1/typing" ∈ (["conversation/c1/typing", "conversation/c2/typing"]
        : List String)
      ∧ (["conversation/c1/typing", "conversation/c2/typing"] : List String).Nodup
      ∧ mhas ackWitnessState.activeTopics "conversation/c1/typing" = false)
    ∧ ((mhas ackWitnessState.subscribedTopics "conversation/c1/typing" = true →
        mget (ackWitnessState.subscribeGranted
            ["conversation/c1/typing", "conversation/c2/typing"] 1).1.activeTopics
            "conversation/c1/typing" = some 1
        ∧ "conversation/c1/typing" ∉ (ackWitnessState.subscribeGranted
            ["conversation/c1/typing", "conversation/c2/typing"] 1).1.pendingTopics)
      ∧ (mhas ackWitnessState.subscribedTopics "conversation/c1/typing" = false →
        mhas (ackWitnessState.subscribeGranted
            ["conversation/c1/typing", "conversation/c2/typing"] 1).1.activeTopics
            "conversation/c1/typing" = false
        ∧ "conversation/c1/typing" ∈ (ackWitnessState.subscribeGranted
            ["conversation/c1/typing", "conversation/c2/typing"] 1).2
        ∧ "conversation/c1/typing" ∉ (ackWitnessState.subscribeGranted
            ["conversation/c1/typing", "conversation/c2/typing"] 1).1.pendingTopics)) :=
  ⟨⟨by decide, by decide, by decide⟩,
    subscribe_ack_race ackWitnessState
      ["conversation/c1/typing", "conversation/c2/typing"] 1 "conversation/c1/typing"
      (by decide) (by decide) (by decide)⟩

/-! ### C4 — optimistic send reconciliation (API-backed store) -/

theorem map_noop (messages : List ApiMessage) (f : ApiMessage → ApiMessage)
    (h : ∀ m ∈ messages, f m = m) : messages.map f = messages := by
  induction messages with
  | nil => rfl
  | cons m rest ih =>
    simp only [List.map_cons]
    rw [h m (List.mem_cons_self m rest),
      ih (fun m' hm' => h m' (List.mem_cons_of_mem m hm'))]

theorem filter_id_nil (messages : List ApiMessage) (i : String)
    (h : ∀ m ∈ messages, m.id ≠ i) :
    messages.filter (fun m => m.id == i) = [] := by
  induction messages with
  | nil => rfl
  | cons m rest ih =>
    rw [List.filter_cons,
      if_neg (by rw [beq_iff_eq]; exact h m (List.mem_cons_self m rest)),
      ih (fun m' hm' => h m' (List.mem_cons_of_mem m hm'))]

/-- C4: `sendMessage` first appends an optimistic entry with the temp id
and status `Sending`; when the HTTP call returns the canonical message,
that entry is replaced in place by id, leaving exactly one message for
the send (carrying the server id, and the server status — `Sent` for a
confirmed send); when the HTTP call rejects, the entry stays in the list
with its status flipped to `Failed`. -/
theorem optimistic_send_reconciliation
    (messages : List ApiMessage) (payload : SendMessageDto)
    (senderId tempId timestamp : String) (serverMsg : ApiMessage)
    (hTemp : ∀ m ∈ messages, m.id ≠ tempId)
    (hSrv : ∀ m ∈ messages, m.id ≠ serverMsg.id)
    (hNe : serverMsg.id ≠ tempId) :
    (optimisticMessage payload senderId tempId timestamp).status = MessageStatus.sending
    ∧ storeAddMessage messages (optimisticMessage payload senderId tempId timestamp)
        = messages ++ [optimisticMessage payload senderId tempId timestamp]
    ∧ sendMessageRun messages payload senderId tempId timestamp (some serverMsg)
        = messages ++ [serverMsg]
    ∧ ((sendMessageRun messages payload senderId tempId timestamp
          (some serverMsg)).filter (fun m => m.id == serverMsg.id)).length = 1
    ∧ (∀ m ∈ sendMessageRun messages payload senderId tempId timestamp (some serverMsg),
        m.id ≠ tempId)
    ∧ sendMessageRun messages payload senderId tempId timestamp none
        = messages
          ++ [{ optimisticMessage payload senderId tempId timestamp with
                status := MessageStatus.failed }] := by
  have hsome : sendMessageRun messages payload senderId tempId timestamp (some serverMsg)
      = messages ++ [serverMsg] := by
    show (messages ++ [optimisticMessage payload senderId tempId timestamp]).map
        (fun item => if item.id = tempId then serverMsg else item)
      = messages ++ [serverMsg]
    rw [List.map_append, map_noop messages _ (fun m hm => if_neg (hTemp m hm))]
    show messages ++ [if (optimisticMessage payload senderId tempId timestamp).id = tempId
      then serverMsg else optimisticMessage payload senderId tempId timestamp] = _
    rw [if_pos (show (optimisticMessage payload senderId tempId timestamp).id = tempId
      from rfl)]
  have hnone : sendMessageRun messages payload senderId tempId timestamp none
      = messages ++ [{ optimisticMessage payload senderId tempId timestamp with
          status := MessageStatus.failed }] := by
    show (messages ++ [optimisticMessage payload senderId tempId timestamp]).map
        (fun item => if item.id = tempId
          then { item with status := MessageStatus.failed } else item)
      = messages ++ [{ optimisticMessage payload senderId tempId timestamp with
          status := MessageStatus.failed }]
    rw [List.map_append, map_noop messages _ (fun m hm => if_neg (hTemp m hm))]
    show messages ++ [if (optimisticMessage payload senderId tempId timestamp).id = tempId
      then { optimisticMessage payload senderId tempId timestamp with
             status := MessageStatus.failed }
      else optimisticMessage payload senderId tempId timestamp] = _
    rw [if_pos (show (optimisticMessage payload senderId tempId timestamp).id = tempId
      from rfl)]
  refine ⟨rfl, rfl, hsome, ?_, ?_, hnone⟩
  · rw [hsome, List.filter_append, filter_id_nil messages serverMsg.id hSrv,
      List.filter_cons, if_pos (by rw [beq_iff_eq])]
    rfl
  · rw [hsome]
    intro m hm
    rcases List.mem_append.1 hm with h1 | h1
    · exact hTemp m h1
    · rw [List.mem_singleton] at h1
      rw [h1]
      exact hNe

theorem optimistic_send_reconciliation_witness :
    ((∀ m ∈ ([] : List ApiMessage), m.id ≠ "tmp-1")
      ∧ (∀ m ∈ ([] : List ApiMessage), m.id ≠ exServerMsg.id)
      ∧ exServerMsg.id ≠ "tmp-1")
    ∧ ((optimisticMessage ⟨"c1", "hi"⟩ "u1" "tmp-1" "10:00").status = MessageStatus.sending
      ∧ storeAddMessage [] (optimisticMessage ⟨"c1", "hi"⟩ "u1" "tmp-1" "10:00")
          = [] ++ [optimisticMessage ⟨"c1", "hi"⟩ "u1" "tmp-1" "10:00"]
      ∧ sendMessageRun [] ⟨"c1", "hi"⟩ "u1" "tmp-1" "10:00" (some exServerMsg)
          = [] ++ [exServerMsg]
      ∧ ((sendMessageRun [] ⟨"c1", "hi"⟩ "u1" "tmp-1" "10:00"
            (some exServerMsg)).filter (fun m => m.id == exServerMsg.id)).length = 1
      ∧ (∀ m ∈ sendMessageRun [] ⟨"c1", "hi"⟩ "u1" "tmp-1" "10:00" (some exServerMsg),
          m.id ≠ "tmp-1")
      ∧ sendMessageRun [] ⟨"c1", "hi"⟩ "u1" "tmp-1" "10:00" none
          = [] ++ [{ optimisticMessage ⟨"c1", "hi"⟩ "u1" "tmp-1" "10:00" with
                     status := MessageStatus.failed }]) :=
  ⟨⟨fun m hm => absurd hm (List.not_mem_nil m),
    fun m hm => absurd hm (List.not_mem_nil m), by decide⟩,
    optimistic_send_reconciliation [] ⟨"c1", "hi"⟩ "u1" "tmp-1" "10:00" exServerMsg
      (fun m hm => absurd hm (List.not_mem_nil m))
      (fun m hm => absurd hm (List.not_mem_nil m)) (by decide)⟩

/-! ### C5 — repeated delivery of the same `message.new` event -/

theorem dispatch_message_appends (st : LibChatState) (topic : String) (d : MessageNewPayload)
    (hmatch : (matchSeg "conversation/".data "/message/new".data topic.data).isSome = true) :
    mget (dispatchMessageNew st topic (some d)).messages d.conversationId
      = some (((mget st.messages d.conversationId).getD []) ++ [payloadToMessage d]) := by
  unfold dispatchMessageNew
  cases hm : matchSeg "conversation/".data "/message/new".data topic.data with
  | none =>
    rw [hm] at hmatch
    exact Bool.noConfusion hmatch
  | some mid =>
    show mget (st.addMessage d.conversationId (payloadToMessage d)).messages
      d.conversationId = _
    unfold LibChatState.addMessage
    show mget (mset st.messages d.conversationId _) d.conversationId = _
    rw [mget_mset, if_pos rfl]

/-- C5 counterexample: delivering the identical `message.new` wire event
twice through the bridge dispatch and `addMessage` does not leave the
state unchanged — the second delivery appends a duplicate entry. -/
theorem message_idempotence_counterexample :
    dispatchMessageNew (dispatchMessageNew emptyLibState exMsgTopic (some exMsgPayload))
        exMsgTopic (some exMsgPayload)
      ≠ dispatchMessageNew emptyLibState exMsgTopic (some exMsgPayload) := by
  decide

/-- C5 amended: `addMessage` appends unconditionally (no deduplication by
id), so each delivery of the same decoded `message.new` event appends one
more copy of the message; delivery is not idempotent. -/
theorem message_delivery_not_idempotent (st : LibChatState) (topic : String)
    (d : MessageNewPayload)
    (hmatch : (matchSeg "conversation/".data "/message/new".data topic.data).isSome = true) :
    mget (dispatchMessageNew st topic (some d)).messages d.conversationId
      = some (((mget st.messages d.conversationId).getD []) ++ [payloadToMessage d])
    ∧ mget (dispatchMessageNew (dispatchMessageNew st topic (some d)) topic
          (some d)).messages d.conversationId
      = some ((((mget st.messages d.conversationId).getD []) ++ [payloadToMessage d])
          ++ [payloadToMessage d]) := by
  have h1 := dispatch_message_appends st topic d hmatch
  have h2 := dispatch_message_appends (dispatchMessageNew st topic (some d)) topic d hmatch
  rw [h1, Option.getD_some] at h2
  exact ⟨h1, h2⟩

theorem message_delivery_not_idempotent_witness :
    (matchSeg "conversation/".data "/message/new".data exMsgTopic.data).isSome = true
    ∧ (mget (dispatchMessageNew emptyLibState exMsgTopic (some exMsgPayload)).messages
          exMsgPayload.conversationId
        = some (((mget emptyLibState.messages exMsgPayload.conversationId).getD [])
            ++ [payloadToMessage exMsgPayload])
      ∧ mget (dispatchMessageNew (dispatchMessageNew emptyLibState exMsgTopic
            (some exMsgPayload)) exMsgTopic (some exMsgPayload)).messages
          exMsgPayload.conversationId
        = some ((((mget emptyLibState.messages exMsgPayload.conversationId).getD [])
            ++ [payloadToMessage exMsgPayload]) ++ [payloadToMessage exMsgPayload])) :=
  ⟨by decide,
    message_delivery_not_idempotent emptyLibState exMsgTopic exMsgPayload (by decide)⟩

/-! ### C7 — topic codec round trip -/

theorem string_data_inj {a b : String} (h : a.data = b.data) : a = b := by
  cases a with
  | mk da =>
    cases b with
    | mk db =>
      have h' : da = db := h
      rw [h']

theorem dropPre_self_append (p r : List Char) : dropPre p (p ++ r) = some r := by
  induction p with
  | nil => rfl
  | cons a ps ih =>
    show dropPre (a :: ps) (a :: (ps ++ r)) = some r
    unfold dropPre
    rw [if_pos rfl]
    exact ih

theorem dropPre_sound (p : List Char) : ∀ s r, dropPre p s = some r → s = p ++ r := by
  induction p with
  | nil =>
    intro s r h
    injection h with h'
  | cons a ps ih =>
    intro s r h
    cases s with
    | nil => cases h
    | cons c cs =>
      unfold dropPre at h
      by_cases hc : c = a
      · rw [if_pos hc] at h
        rw [List.cons_append, ← ih cs r h, hc]
      · rw [if_neg hc] at h
        cases h

theorem dropPre_head_ne (a b : Char) (ps cs : List Char) (h : ¬ b = a) :
    dropPre (a :: ps) (b :: cs) = none := by
  unfold dropPre
  rw [if_neg h]

theorem dropSuf_append (suf m : List Char) : dropSuf suf (m ++ suf) = some m := by
  unfold dropSuf
  rw [List.reverse_append, dropPre_self_append]
  simp [List.reverse_reverse]

theorem dropSuf_sound (suf s m : List Char) (h : dropSuf suf s = some m) : s = m ++ suf := by
  unfold dropSuf at h
  cases hp : dropPre suf.reverse s.reverse with
  | none =>
    rw [hp] at h
    cases h
  | some r =>
    rw [hp] at h
    simp only [Option.map_some'] at h
    injection h with h'
    have hs := dropPre_sound suf.reverse s.reverse r hp
    have hrev : s = (suf.reverse ++ r).reverse := by
      rw [← hs, List.reverse_reverse]
    rw [hrev, List.reverse_append, List.reverse_reverse, h']

theorem dropSuf_append_ne (suf other m : List Char) (a b : Char) (ps qs : List Char)
    (hsuf : suf.reverse = a :: ps) (hoth : other.reverse = b :: qs) (hne : ¬ b = a) :
    dropSuf suf (m ++ other) = none := by
  unfold dropSuf
  rw [List.reverse_append, hoth, hsuf, List.cons_append, dropPre_head_ne a b ps _ hne]
  rfl

theorem matchSeg_none_of_dropSuf_none (pre suf r : List Char)
    (h : dropSuf suf r = none) : matchSeg pre suf (pre ++ r) = none := by
  unfold matchSeg
  rw [dropPre_self_append]
  show (match dropSuf suf r with
    | none => none
    | some mid => if mid = [] then none else if '/' ∈ mid then none else some mid)
    = (none : Option (List Char))
  rw [h]

theorem matchSeg_of_parts (pre suf r mid : List Char)
    (h : dropSuf suf r = some mid) (h1 : mid ≠ []) (h2 : '/' ∉ mid) :
    matchSeg pre suf (pre ++ r) = some mid := by
  unfold matchSeg
  rw [dropPre_self_append]
  show (match dropSuf suf r with
    | none => none
    | some mid => if mid = [] then none else if '/' ∈ mid then none else some mid)
    = some mid
  rw [h]
  show (if mid = [] then none else if '/' ∈ mid then none else some mid) = some mid
  rw [if_neg h1, if_neg h2]

theorem matchSeg_self (pre suf mid : List Char) (h1 : mid ≠ []) (h2 : '/' ∉ mid) :
    matchSeg pre suf (pre ++ (mid ++ suf)) = some mid :=
  matchSeg_of_parts pre suf (mid ++ suf) mid (dropSuf_append suf mid) h1 h2

theorem matchSeg_sound (pre suf s mid : List Char) (h : matchSeg pre suf s = some mid) :
    s = pre ++ (mid ++ suf) ∧ mid ≠ [] ∧ '/' ∉ mid := by
  unfold matchSeg at h
  split at h
  next => exact Option.noConfusion h
  next r heq1 =>
    split at h
    next => exact Option.noConfusion h
    next mid' heq2 =>
      split at h
      next => exact Option.noConfusion h
      next he =>
        split at h
        next => exact Option.noConfusion h
        next hs =>
          injection h with h'
          subst h'
          refine ⟨?_, he, hs⟩
          rw [dropPre_sound pre s r heq1, dropSuf_sound suf r mid' heq2]

theorem msgSuf_rev : "/message/new".data.reverse = 'w' :: "en/egassem/".data := by decide

theorem typSuf_rev : "/typing".data.reverse = 'g' :: "nipyt/".data := by decide

theorem seenSuf_rev : "/seen".data.reverse = 'n' :: "ees/".data := by decide

theorem topicFor_messageNew_data (cid : String) :
    (topicFor .messageNew cid).data
      = "conversation/".data ++ (cid.data ++ "/message/new".data) := by
  show (("conversation/" ++ cid) ++ "/message/new").data = _
  rw [String.data_append, String.data_append, List.append_assoc]

theorem topicFor_typing_data (cid : String) :
    (topicFor .typing cid).data
      = "conversation/".data ++ (cid.data ++ "/typing".data) := by
  show (("conversation/" ++ cid) ++ "/typing").data = _
  rw [String.data_append, String.data_append, List.append_assoc]

theorem topicFor_seen_data (cid : String) :
    (topicFor .seen cid).data
      = "conversation/".data ++ (cid.data ++ "/seen".data) := by
  show (("conversation/" ++ cid) ++ "/seen").data = _
  rw [String.data_append, String.data_append, List.append_assoc]

theorem parse_topicFor_messageNew (cid : String) (h1 : cid.data ≠ []) (h2 : '/' ∉ cid.data) :
    parseTopic (topicFor .messageNew cid) = some (.messageNew cid) := by
  unfold parseTopic
  rw [topicFor_messageNew_data, matchSeg_self _ _ _ h1 h2]

theorem parse_topicFor_typing (cid : String) (h1 : cid.data ≠ []) (h2 : '/' ∉ cid.data) :
    parseTopic (topicFor .typing cid) = some (.typing cid) := by
  unfold parseTopic
  rw [topicFor_typing_data,
    matchSeg_none_of_dropSuf_none _ _ _
      (dropSuf_append_ne "/message/new".data "/typing".data cid.data 'w' 'g' _ _
        msgSuf_rev typSuf_rev (by decide)),
    matchSeg_self _ _ _ h1 h2]

theorem parse_topicFor_seen (cid : String) (h1 : cid.data ≠ []) (h2 : '/' ∉ cid.data) :
    parseTopic (topicFor .seen cid) = some (.seen cid) := by
  unfold parseTopic
  rw [topicFor_seen_data,
    matchSeg_none_of_dropSuf_none _ _ _
      (dropSuf_append_ne "/message/new".data "/seen".data cid.data 'w' 'n' _ _
        msgSuf_rev seenSuf_rev (by decide)),
    matchSeg_none_of_dropSuf_none _ _ _
      (dropSuf_append_ne "/typing".data "/seen".data cid.data 'g' 'n' _ _
        typSuf_rev seenSuf_rev (by decide)),
    matchSeg_self _ _ _ h1 h2]

theorem parse_topicFor_online (cid : String) :
    parseTopic (topicFor .presenceOnline cid) = some .online := rfl

theorem parseTopic_sound (s : String) (r : ParsedTopic) (h : parseTopic s = some r) :
    s = r.toTopic := by
  unfold parseTopic at h
  split at h
  next cid heq =>
    injection h with h'
    subst h'
    obtain ⟨hs, _, _⟩ := matchSeg_sound _ _ _ _ heq
    apply string_data_inj
    rw [hs]
    show _ = (topicFor .messageNew ⟨cid⟩).data
    rw [topicFor_messageNew_data]
  next =>
    split at h
    next cid heq =>
      injection h with h'
      subst h'
      obtain ⟨hs, _, _⟩ := matchSeg_sound _ _ _ _ heq
      apply string_data_inj
      rw [hs]
      show _ = (topicFor .typing ⟨cid⟩).data
      rw [topicFor_typing_data]
    next =>
      split at h
      next cid heq =>
        injection h with h'
        subst h'
        obtain ⟨hs, _, _⟩ := matchSeg_sound _ _ _ _ heq
        apply string_data_inj
        rw [hs]
        show _ = (topicFor .seen ⟨cid⟩).data
        rw [topicFor_seen_data]
      next =>
        split at h
        next hp =>
          injection h with h'
          subst h'
          exact hp
        next => exact Option.noConfusion h

/-- C7 counterexample: `parse` is not a left inverse of `topicFor` for
every conversation id — an id containing a slash never round-trips, since
the capture groups are `[^/]+`: the generated typing topic for id `a/b`
parses to no match at all. -/
theorem topic_codec_counterexample :
    parseTopic (topicFor .typing "a/b") = none
    ∧ parseTopic (topicFor .typing "a/b") ≠ some (ParsedTopic.typing "a/b") :=
  ⟨by decide, by decide⟩

/-- C7 amended: for conversation ids that are nonempty and slash-free
(the `[^/]+` capture language), `parse` recovers exactly the kind and id
from every generated topic; and `parse` is sound — any string it accepts
is a generated topic (so every non-generated string parses to no match),
and being a total function it never throws. -/
theorem topic_codec_round_trip :
    (∀ (k : TopicKind) (cid : String), cid.data ≠ [] → '/' ∉ cid.data →
      parseTopic (topicFor k cid) = some (expectedParse k cid))
    ∧ (∀ (s : String) (r : ParsedTopic), parseTopic s = some r → s = r.toTopic) := by
  constructor
  · intro k cid h1 h2
    cases k with
    | messageNew => exact parse_topicFor_messageNew cid h1 h2
    | typing => exact parse_topicFor_typing cid h1 h2
    | seen => exact parse_topicFor_seen cid h1 h2
    | presenceOnline => exact parse_topicFor_online cid
  · exact parseTopic_sound

theorem topic_codec_round_trip_witness :
    (("c1" : String).data ≠ [] ∧ '/' ∉ ("c1" : String).data)
    ∧ parseTopic (topicFor .typing "c1") = some (expectedParse .typing "c1") :=
  ⟨⟨by decide, by decide⟩,
    topic_codec_round_trip.1 .typing "c1" (by decide) (by decide)⟩

/-! ### C9 — typing-expiry timers -/

theorem scontains_mem {l : List String} {x : String} (h : l.contains x = true) : x ∈ l :=
  List.mem_of_elem_eq_true h

theorem clearTimer_frame (st : BridgeState) (c u : String) :
    (st.clearTimer c u).nextId = st.nextId ∧ (st.clearTimer c u).now = st.now
    ∧ (st.clearTimer c u).store = st.store := by
  unfold BridgeState.clearTimer
  cases mget st.typingTimers (timerKey c u) <;> exact ⟨rfl, rfl, rfl⟩

theorem wf_clearTimer {st : BridgeState} (hwf : TimersWF st) (c u : String) :
    TimersWF (st.clearTimer c u) := by
  obtain ⟨hbound, hinj, hiff⟩ := hwf
  unfold BridgeState.clearTimer
  cases hm : mget st.typingTimers (timerKey c u) with
  | none => exact ⟨hbound, hinj, hiff⟩
  | some tid₀ =>
    refine ⟨?_, ?_, ?_⟩
    · intro τ hτ
      exact hbound τ (List.mem_of_mem_filter hτ)
    · intro τ₁ h₁ τ₂ h₂ he
      exact hinj τ₁ (List.mem_of_mem_filter h₁) τ₂ (List.mem_of_mem_filter h₂) he
    · intro k tid
      constructor
      · intro hget
        have hget' : mget (mdel st.typingTimers (timerKey c u)) k = some tid := hget
        rw [mget_mdel] at hget'
        by_cases hk : k = timerKey c u
        · rw [if_pos hk] at hget'
          exact Option.noConfusion hget'
        · rw [if_neg hk] at hget'
          obtain ⟨τ, hτ, htid, hkey⟩ := (hiff k tid).1 hget'
          refine ⟨τ, ?_, htid, hkey⟩
          rw [List.mem_filter]
          refine ⟨hτ, ?_⟩
          rw [bne_iff_ne]
          intro he
          obtain ⟨τ₀, hτ₀, htid₀, hkey₀⟩ := (hiff (timerKey c u) tid₀).1 hm
          have hττ₀ : τ = τ₀ := hinj τ hτ τ₀ hτ₀ (by rw [he, htid₀])
          exact hk (by rw [← hkey, hττ₀]; exact hkey₀)
      · rintro ⟨τ, hτ, htid, hkey⟩
        rw [List.mem_filter] at hτ
        obtain ⟨hτmem, hpred⟩ := hτ
        rw [bne_iff_ne] at hpred
        have hget : mget st.typingTimers k = some tid := (hiff k tid).2 ⟨τ, hτmem, htid, hkey⟩
        show mget (mdel st.typingTimers (timerKey c u)) k = some tid
        rw [mget_mdel]
        by_cases hk : k = timerKey c u
        · exfalso
          rw [hk, hm] at hget
          injection hget with hgeteq
          exact hpred (htid.trans hgeteq.symm)
        · rw [if_neg hk]
          exact hget

theorem clearTimer_mget_self (st : BridgeState) (c u : String) :
    mget (st.clearTimer c u).typingTimers (timerKey c u) = none := by
  unfold BridgeState.clearTimer
  cases hm : mget st.typingTimers (timerKey c u) with
  | none => exact hm
  | some tid₀ =>
    show mget (mdel st.typingTimers (timerKey c u)) (timerKey c u) = none
    rw [mget_mdel, if_pos rfl]

theorem clearTimer_no_task {st : BridgeState} (hwf : TimersWF st) (c u : String) :
    ∀ τ ∈ (st.clearTimer c u).tasks, τ.key ≠ timerKey c u := by
  intro τ hτ hkey
  have h2 : mget (st.clearTimer c u).typingTimers (timerKey c u) = some τ.tid :=
    ((wf_clearTimer hwf c u).2.2 _ _).2 ⟨τ, hτ, rfl, hkey⟩
  rw [clearTimer_mget_self] at h2
  exact Option.noConfusion h2

theorem schedule_tasks (st : BridgeState) (c u : String) :
    (st.scheduleTypingClear c u).tasks
      = (st.clearTimer c u).tasks ++ [⟨st.nextId, c, u, st.now + TYPING_TIMEOUT_MS⟩] := by
  show (st.clearTimer c u).tasks ++ [⟨(st.clearTimer c u).nextId, c, u,
      (st.clearTimer c u).now + TYPING_TIMEOUT_MS⟩] = _
  rw [(clearTimer_frame st c u).1, (clearTimer_frame st c u).2.1]

theorem schedule_timers (st : BridgeState) (c u : String) :
    (st.scheduleTypingClear c u).typingTimers
      = mset (st.clearTimer c u).typingTimers (timerKey c u) st.nextId := by
  show mset (st.clearTimer c u).typingTimers (timerKey c u) (st.clearTimer c u).nextId = _
  rw [(clearTimer_frame st c u).1]

theorem schedule_nextId (st : BridgeState) (c u : String) :
    (st.scheduleTypingClear c u).nextId = st.nextId + 1 := by
  show (st.clearTimer c u).nextId + 1 = _
  rw [(clearTimer_frame st c u).1]

theorem wf_schedule {st : BridgeState} (hwf : TimersWF st) (c u : String) :
    TimersWF (st.scheduleTypingClear c u) := by
  obtain ⟨hbound1, hinj1, hiff1⟩ := wf_clearTimer hwf c u
  have hnid : (st.clearTimer c u).nextId = st.nextId := (clearTimer_frame st c u).1
  refine ⟨?_, ?_, ?_⟩
  · intro τ hτ
    rw [schedule_tasks] at hτ
    rw [schedule_nextId]
    rcases List.mem_append.1 hτ with h1 | h1
    · have hlt := hbound1 τ h1
      rw [hnid] at hlt
      exact Nat.lt_succ_of_lt hlt
    · rw [List.mem_singleton] at h1
      rw [h1]
      exact Nat.lt_succ_self _
  · intro τ₁ h₁ τ₂ h₂ he
    rw [schedule_tasks] at h₁ h₂
    rcases List.mem_append.1 h₁ with ha | ha <;> rcases List.mem_append.1 h₂ with hb | hb
    · exact hinj1 τ₁ ha τ₂ hb he
    · exfalso
      rw [List.mem_singleton] at hb
      have hlt := hbound1 τ₁ ha
      rw [hnid] at hlt
      rw [hb] at he
      rw [he] at hlt
      exact Nat.lt_irrefl _ hlt
    · exfalso
      rw [List.mem_singleton] at ha
      have hlt := hbound1 τ₂ hb
      rw [hnid] at hlt
      rw [ha] at he
      rw [← he] at hlt
      exact Nat.lt_irrefl _ hlt
    · rw [List.mem_singleton] at ha hb
      rw [ha, hb]
  · intro k tid
    rw [schedule_tasks, schedule_timers]
    by_cases hk : k = timerKey c u
    · subst hk
      rw [mget_mset, if_pos rfl]
      constructor
      · intro hsome
        injection hsome with he
        exact ⟨⟨st.nextId, c, u, st.now + TYPING_TIMEOUT_MS⟩,
          List.mem_append.2 (Or.inr (List.mem_singleton.2 rfl)), he, rfl⟩
      · rintro ⟨τ, hτ, htid, hkey⟩
        rcases List.mem_append.1 hτ with h1 | h1
        · exact absurd hkey (clearTimer_no_task hwf c u τ h1)
        · rw [List.mem_singleton] at h1
          rw [h1] at htid
          exact congrArg some htid
    · rw [mget_mset, if_neg hk]
      constructor
      · intro hget
        obtain ⟨τ, hτ, htid, hkey⟩ := (hiff1 k tid).1 hget
        exact ⟨τ, List.mem_append.2 (Or.inl hτ), htid, hkey⟩
      · rintro ⟨τ, hτ, htid, hkey⟩
        rcases List.mem_append.1 hτ with h1 | h1
        · exact (hiff1 k tid).2 ⟨τ, h1, htid, hkey⟩
        · exfalso
          rw [List.mem_singleton] at h1
          rw [h1] at hkey
          exact hk hkey.symm

theorem fire_eq_stop {st : BridgeState} (hwf : TimersWF st) (τ : TypingTask)
    (hmem : τ ∈ st.tasks) :
    st.fireTimer τ.tid = st.recvTypingFalse τ.conversationId τ.userId := by
  obtain ⟨hbound, hinj, hiff⟩ := hwf
  have hfind : st.tasks.find? (fun τ' => τ'.tid == τ.tid) = some τ := by
    cases hf : st.tasks.find? (fun τ' => τ'.tid == τ.tid) with
    | none =>
      exfalso
      rw [List.find?_eq_none] at hf
      exact hf τ hmem (by rw [beq_iff_eq])
    | some τ' =>
      have hmem' := List.mem_of_find?_eq_some hf
      have hp := List.find?_some hf
      rw [beq_iff_eq] at hp
      exact congrArg some (hinj τ' hmem' τ hmem hp)
  have hmap : mget st.typingTimers τ.key = some τ.tid :=
    (hiff τ.key τ.tid).2 ⟨τ, hmem, rfl, rfl⟩
  have hmap' : mget ({ st with
      store := st.store.removeTypingUser τ.conversationId τ.userId }
      : BridgeState).typingTimers (timerKey τ.conversationId τ.userId) = some τ.tid := hmap
  unfold BridgeState.fireTimer
  rw [hfind]
  unfold BridgeState.recvTypingFalse BridgeState.clearTimer
  rw [hmap']
  rfl

theorem wf_recvTypingTrue {st : BridgeState} (hwf : TimersWF st) (c u : String) :
    TimersWF (st.recvTypingTrue c u) :=
  @wf_schedule { st with store := st.store.setTypingUser c u } hwf c u

theorem wf_recvTypingFalse {st : BridgeState} (hwf : TimersWF st) (c u : String) :
    TimersWF (st.recvTypingFalse c u) :=
  @wf_clearTimer { st with store := st.store.removeTypingUser c u } hwf c u

theorem timersWF_of_reachable {st : BridgeState} (h : BridgeReachable st) : TimersWF st := by
  induction h with
  | init =>
    refine ⟨?_, ?_, ?_⟩
    · intro τ hτ
      exact absurd hτ (List.not_mem_nil τ)
    · intro τ₁ h₁
      exact absurd h₁ (List.not_mem_nil τ₁)
    · intro k tid
      constructor
      · intro hget
        exact Option.noConfusion hget
      · rintro ⟨τ, hτ, _, _⟩
        exact absurd hτ (List.not_mem_nil τ)
  | step _ hstep ih =>
    cases hstep with
    | typingStart c u => exact wf_recvTypingTrue ih c u
    | typingStop c u => exact wf_recvTypingFalse ih c u
    | fire τ hmem hd =>
      rw [fire_eq_stop ih τ hmem]
      exact wf_recvTypingFalse ih τ.conversationId τ.userId
    | stopAll =>
      refine ⟨?_, ?_, ?_⟩
      · intro τ hτ
        exact absurd hτ (List.not_mem_nil τ)
      · intro τ₁ h₁
        exact absurd h₁ (List.not_mem_nil τ₁)
      · intro k tid
        constructor
        · intro hget
          exact Option.noConfusion hget
        · rintro ⟨τ, hτ, _, _⟩
          exact absurd hτ (List.not_mem_nil τ)
    | tick d => exact ih

theorem mem_setTypingUser (s : LibChatState) (c u : String) :
    u ∈ (mget (s.setTypingUser c u).typingUsers c).getD [] := by
  unfold LibChatState.setTypingUser
  by_cases hc : ((mget s.typingUsers c).getD []).contains u = true
  · rw [if_pos hc]
    exact scontains_mem hc
  · rw [if_neg hc]
    show u ∈ (mget (mset s.typingUsers c
      (((mget s.typingUsers c).getD []) ++ [u])) c).getD []
    rw [mget_mset, if_pos rfl]
    exact List.mem_append.2 (Or.inr (List.mem_singleton.2 rfl))

theorem not_mem_removeTypingUser (s : LibChatState) (c u : String) :
    u ∉ (mget (s.removeTypingUser c u).typingUsers c).getD [] := by
  unfold LibChatState.removeTypingUser
  by_cases hc : ((mget s.typingUsers c).getD []).contains u = false
  · rw [if_pos hc]
    intro hmem
    have h2 : ((mget s.typingUsers c).getD []).contains u = true :=
      List.elem_eq_true_of_mem hmem
    rw [hc] at h2
    exact Bool.noConfusion h2
  · rw [if_neg hc]
    by_cases he : (((mget s.typingUsers c).getD []).filter
        (fun i => i != u)).isEmpty = true
    · rw [if_pos he]
      show u ∉ (mget (mdel s.typingUsers c) c).getD []
      rw [mget_mdel, if_pos rfl]
      exact List.not_mem_nil u
    · rw [if_neg he]
      show u ∉ (mget (mset s.typingUsers c
        (((mget s.typingUsers c).getD []).filter (fun i => i != u))) c).getD []
      rw [mget_mset, if_pos rfl]
      intro hmem
      rw [Option.getD_some, List.mem_filter] at hmem
      have h2 := hmem.2
      rw [bne_iff_ne] at h2
      exact h2 rfl

/-- C9: in every reachable bridge state there is at most one live
typing-expiry task per `(conversationId, userId)` key; a typing event
with `active = true` marks the user typing and (re)arms a fresh
3000 ms task for the key, cancelling any prior timer for that key (the
only live task for the key afterwards is the newly armed one); a typing
event with `active = false` unmarks the user and cancels the key's timer;
and a timer firing has exactly the same state effect as an explicit
typing-stop event for its conversation/user. -/
theorem typing_timer_spec (st : BridgeState) (h : BridgeReachable st) : TypingClaims st := by
  have hwf := timersWF_of_reachable h
  obtain ⟨hbound, hinj, hiff⟩ := hwf
  refine ⟨?_, ?_, ?_, ?_, ?_⟩
  · intro τ₁ h₁ τ₂ h₂ hk
    have hm₁ : mget st.typingTimers τ₁.key = some τ₁.tid := (hiff _ _).2 ⟨τ₁, h₁, rfl, rfl⟩
    have hm₂ : mget st.typingTimers τ₂.key = some τ₂.tid := (hiff _ _).2 ⟨τ₂, h₂, rfl, rfl⟩
    rw [hk, hm₂] at hm₁
    injection hm₁ with he
    exact hinj τ₁ h₁ τ₂ h₂ he.symm
  · intro c u τ hτ hk
    have hτ' : τ ∈ (BridgeState.scheduleTypingClear
        { st with store := st.store.setTypingUser c u } c u).tasks := hτ
    rw [schedule_tasks] at hτ'
    rcases List.mem_append.1 hτ' with h1 | h1
    · exact absurd hk
        (@clearTimer_no_task { st with store := st.store.setTypingUser c u }
          ⟨hbound, hinj, hiff⟩ c u τ h1)
    · rw [List.mem_singleton] at h1
      exact h1
  · intro c u
    constructor
    · show (⟨st.nextId, c, u, st.now + TYPING_TIMEOUT_MS⟩ : TypingTask)
        ∈ (BridgeState.scheduleTypingClear
            { st with store := st.store.setTypingUser c u } c u).tasks
      rw [schedule_tasks]
      exact List.mem_append.2 (Or.inr (List.mem_singleton.2 rfl))
    · have hst : (st.recvTypingTrue c u).store = st.store.setTypingUser c u := by
        show (BridgeState.clearTimer
          { st with store := st.store.setTypingUser c u } c u).store = _
        rw [(clearTimer_frame _ c u).2.2]
      rw [hst]
      exact mem_setTypingUser st.store c u
  · intro c u
    constructor
    · intro τ hτ
      exact @clearTimer_no_task { st with store := st.store.removeTypingUser c u }
        ⟨hbound, hinj, hiff⟩ c u τ hτ
    · have hst : (st.recvTypingFalse c u).store = st.store.removeTypingUser c u := by
        show (BridgeState.clearTimer
          { st with store := st.store.removeTypingUser c u } c u).store = _
        rw [(clearTimer_frame _ c u).2.2]
      rw [hst]
      exact not_mem_removeTypingUser st.store c u
  · intro τ hmem
    exact fire_eq_stop ⟨hbound, hinj, hiff⟩ τ hmem

theorem typing_timer_spec_witness :
    BridgeReachable initialBridgeState ∧ TypingClaims initialBridgeState :=
  ⟨BridgeReachable.init, typing_timer_spec initialBridgeState BridgeReachable.init⟩

end TelegramFE
